import Mathlib

/-
Verification of the transfer-cache layer of tcmalloc, as declared in
src/tcmalloc/transfer_cache.h.

The header defines the `TransferCacheManager` dispatcher (both the normal
build and the TCMALLOC_SMALL_BUT_SLOW build), its one-time `Init`, the
per-class union of the two backend variants, and the trivial
`ShardedTransferCacheManager` stub.  The backend variants themselves
(`internal_transfer_cache::TransferCache` and
`internal_transfer_cache::RingBufferTransferCache`, declared in
tcmalloc/transfer_cache_internals.h), the stats record
(tcmalloc/transfer_cache_stats.h), the `CentralFreeList`, and the body of
`TransferCacheManager::DetermineSizeClassToEvict` live outside the given
sources; those parts are modelled from the specification and are marked as
such in their doc comments.

Pointers are modelled as natural numbers (opaque identifiers).
-/

namespace TCMalloc

abbrev Ptr := Nat

/-- Modelled from the spec: `TransferCacheStats`
(tcmalloc/transfer_cache_stats.h is not under src/).  The spec describes the
per-class cumulative counters as "{hits, misses, inserts, removes}", and the
small-memory build constructs it with four zeros. -/
structure TransferCacheStats where
  hits : Nat
  misses : Nat
  inserts : Nat
  removes : Nat
deriving DecidableEq

/-- Counter update for a remove request of `n` objects that returned `r`
objects.  Modelled from the spec: "every successful `RemoveRange` that
returns at least one object increments `hits`; a `RemoveRange` returning
fewer than requested increments `misses` for the shortfall; every
inserted/removed object increments `inserts`/`removes` respectively". -/
def TransferCacheStats.onRemove (s : TransferCacheStats) (n r : Nat) :
    TransferCacheStats :=
  { s with hits := s.hits + (if 0 < r then 1 else 0),
           misses := s.misses + (n - r),
           removes := s.removes + r }

/-- Counter update for an insert that stored `k` objects in the cache. -/
def TransferCacheStats.onInsert (s : TransferCacheStats) (k : Nat) :
    TransferCacheStats :=
  { s with inserts := s.inserts + k }

/-! ## The Legacy backend variant -/

/-- Modelled from the spec: the "Legacy" backend variant
`internal_transfer_cache::TransferCache` (declared in
tcmalloc/transfer_cache_internals.h, which is not under src/): "a single
critical section guarding a fixed-size slot array", a bounded pool of
free-object pointers with a dynamic capacity, a capacity maximum, the
per-class growth unit (the class's batch size), and cumulative counters.
The slot array is modelled as the list of currently stored pointers, most
recently inserted last. -/
structure TransferCache where
  slots : List Ptr
  capacity : Nat
  capMax : Nat
  unit : Nat
  stats : TransferCacheStats
deriving DecidableEq

namespace TransferCache

def tc_length (c : TransferCache) : Nat := c.slots.length

/-- Modelled from the spec: insert stores what fits under the current
capacity and forwards the excess to the CentralFreeList ("the excess objects
are forwarded synchronously to the CentralFreeList rather than dropped or
rejected").  Returns the new cache state and the forwarded pointers. -/
def InsertRange (c : TransferCache) (batch : List Ptr) :
    TransferCache × List Ptr :=
  let fit := min batch.length (c.capacity - c.slots.length)
  ({ c with slots := c.slots ++ batch.take fit,
            stats := c.stats.onInsert fit },
   batch.drop fit)

/-- Modelled from the spec: remove returns up to `n` of the cached objects,
most recently inserted first, without touching the CentralFreeList
("when `RemoveRange` cannot satisfy the full request from cached objects, it
returns whatever is available (possibly zero)"). -/
def RemoveRange (c : TransferCache) (n : Nat) : TransferCache × List Ptr :=
  let r := min n c.slots.length
  ({ c with slots := c.slots.take (c.slots.length - r),
            stats := c.stats.onRemove n r },
   (c.slots.drop (c.slots.length - r)).reverse)

/-- Modelled from the spec: "`GrowCache` increases capacity by one growth
unit (the class's batch size) and returns whether it succeeded". -/
def GrowCache (c : TransferCache) : TransferCache × Bool :=
  if c.capacity + c.unit ≤ c.capMax then
    ({ c with capacity := c.capacity + c.unit }, true)
  else (c, false)

/-- Modelled from the spec: "`ShrinkCache` decreases capacity by one growth
unit and returns `false` if already at minimum capacity" (the minimum being
0); capacity changes never touch the stored pointers. -/
def ShrinkCache (c : TransferCache) : TransferCache × Bool :=
  if c.capacity = 0 then (c, false)
  else ({ c with capacity := c.capacity - c.unit }, true)

end TransferCache

/-! ## The RingBuffer backend variant -/

/-- Modelled from the spec: the "RingBuffer" backend variant
`internal_transfer_cache::RingBufferTransferCache` (declared in
tcmalloc/transfer_cache_internals.h, which is not under src/): "circular
buffer with head/tail cursors".  `data` holds the physical slots, indexed
modulo `size`; `start` is the tail cursor and `start + len` the head cursor,
so the live elements are `data ((start + j) % size)` for `j < len`.  The
physical buffer is sized to accommodate the largest capacity the class can
ever reach. -/
structure RingBufferTransferCache where
  size : Nat
  data : Nat → Ptr
  start : Nat
  len : Nat
  capacity : Nat
  capMax : Nat
  unit : Nat
  stats : TransferCacheStats

namespace RingBufferTransferCache

/-- Write the pointers of `batch` into consecutive ring slots starting at
physical position `pos % size`. -/
def writeSlots (size : Nat) (data : Nat → Ptr) (pos : Nat) :
    List Ptr → (Nat → Ptr)
  | [] => data
  | p :: rest =>
      writeSlots size (fun i => if i = pos % size then p else data i)
        (pos + 1) rest

/-- The stored pointers in insertion order (oldest first): the abstraction
from the circular buffer to the Legacy slot list. -/
def toList (c : RingBufferTransferCache) : List Ptr :=
  (List.range c.len).map (fun j => c.data ((c.start + j) % c.size))

def tc_length (c : RingBufferTransferCache) : Nat := c.len

/-- Modelled from the spec, same contract as the Legacy variant: store what
fits under the current capacity at the head cursor, forward the excess to
the CentralFreeList. -/
def InsertRange (c : RingBufferTransferCache) (batch : List Ptr) :
    RingBufferTransferCache × List Ptr :=
  let fit := min batch.length (c.capacity - c.len)
  ({ c with data := writeSlots c.size c.data (c.start + c.len)
              (batch.take fit),
            len := c.len + fit,
            stats := c.stats.onInsert fit },
   batch.drop fit)

/-- Modelled from the spec, same contract as the Legacy variant: return up
to `n` objects from the head cursor, most recently inserted first. -/
def RemoveRange (c : RingBufferTransferCache) (n : Nat) :
    RingBufferTransferCache × List Ptr :=
  let r := min n c.len
  ({ c with len := c.len - r,
            stats := c.stats.onRemove n r },
   (List.range r).map (fun j => c.data ((c.start + (c.len - 1 - j)) % c.size)))

/-- Modelled from the spec: same growth rule as the Legacy variant. -/
def GrowCache (c : RingBufferTransferCache) :
    RingBufferTransferCache × Bool :=
  if c.capacity + c.unit ≤ c.capMax then
    ({ c with capacity := c.capacity + c.unit }, true)
  else (c, false)

/-- Modelled from the spec: same shrink rule as the Legacy variant. -/
def ShrinkCache (c : RingBufferTransferCache) :
    RingBufferTransferCache × Bool :=
  if c.capacity = 0 then (c, false)
  else ({ c with capacity := c.capacity - c.unit }, true)

/-- Structural invariant of the circular buffer: the live region and every
reachable capacity fit inside the physical buffer. -/
def Wf (c : RingBufferTransferCache) : Prop :=
  c.len ≤ c.size ∧ c.capacity ≤ c.size ∧ c.capMax ≤ c.size

end RingBufferTransferCache

/-! ## CentralFreeList (external collaborator) -/

/-- Modelled from the spec: the per-class `CentralFreeList` (external
collaborator, §6): it exposes "a bulk object return operation accepting a
batch" and "a bulk object supply operation returning up to a requested
count".  Its state is the list of objects it currently holds. -/
def centralFreeListInsertRange (fl : List Ptr) (batch : List Ptr) :
    List Ptr :=
  fl ++ batch

/-- Modelled from the spec: bulk supply of up to `n` objects; returns the
remaining freelist state and the supplied objects. -/
def centralFreeListRemoveRange (fl : List Ptr) (n : Nat) :
    List Ptr × List Ptr :=
  (fl.drop n, fl.take n)

/-! ## The TransferCacheManager (normal build) -/

/-- The per-class union `TransferCacheManager::Cache` from
src/tcmalloc/transfer_cache.h lines 143-151: either a Legacy
`TransferCache`, a `RingBufferTransferCache`, or the `dummy` member the
constexpr constructor initializes before `Init` runs. -/
inductive CacheSlot where
  | dummy
  | tc (c : TransferCache)
  | rbtc (c : RingBufferTransferCache)

/-- Which backend variant family a union slot currently holds. -/
inductive Variant where
  | uninitialized
  | legacy
  | ring
deriving DecidableEq

def CacheSlot.variant : CacheSlot → Variant
  | .dummy => .uninitialized
  | .tc _ => .legacy
  | .rbtc _ => .ring

/-- The `TransferCacheManager` of the normal build
(src/tcmalloc/transfer_cache.h lines 51-152): the `use_ringbuffer_` flag,
the array of `kNumClasses` union slots, the atomic eviction cursor
`next_to_evict_`, and — standing in for the external per-class
`CentralFreeList` collaborators the backends forward to — the contents of
each class's freelist. -/
structure TransferCacheManager where
  use_ringbuffer : Bool
  cache : Nat → CacheSlot
  next_to_evict : Nat
  freelist : Nat → List Ptr

/-- Static configuration the manager reads: the number of size classes
`kNumClasses` and, per class, the backends' initial capacity, maximum
capacity, and growth unit (`num_objects_to_move`).  These constants live
outside src/ (tcmalloc/common.h and the backend internals), so they are
parameters of the model. -/
structure Params where
  N : Nat
  initCap : Nat → Nat
  capMax : Nat → Nat
  unit : Nat → Nat

/-- The constexpr constructor (src/tcmalloc/transfer_cache.h line 65):
`constexpr TransferCacheManager() : next_to_evict_(1) {}` with
`use_ringbuffer_ = false` (line 141), every union slot at its `dummy`
member (line 144), and every external freelist empty. -/
def TransferCacheManager.ctor : TransferCacheManager :=
  { use_ringbuffer := false,
    cache := fun _ => .dummy,
    next_to_evict := 1,
    freelist := fun _ => [] }

/-- A freshly placement-constructed Legacy backend for class `i`: empty,
with the configured capacities and zeroed counters. -/
def initTransferCache (P : Params) (i : Nat) : TransferCache :=
  { slots := [],
    capacity := P.initCap i,
    capMax := P.capMax i,
    unit := P.unit i,
    stats := ⟨0, 0, 0, 0⟩ }

/-- A freshly placement-constructed RingBuffer backend for class `i`: empty,
with the configured capacities, zeroed counters, and a physical buffer large
enough for any capacity the class can reach. -/
def initRingBufferTransferCache (P : Params) (i : Nat) :
    RingBufferTransferCache :=
  { size := max (P.initCap i) (P.capMax i),
    data := fun _ => 0,
    start := 0,
    len := 0,
    capacity := P.initCap i,
    capMax := P.capMax i,
    unit := P.unit i,
    stats := ⟨0, 0, 0, 0⟩ }

/-- `TransferCacheManager::Init` (src/tcmalloc/transfer_cache.h lines
70-80): store the configuration flag into `use_ringbuffer_`, then for every
`i` in `[0, kNumClasses)` placement-construct the selected variant in
`cache_[i]`. -/
def TransferCacheManager.Init (P : Params) (flag : Bool)
    (m : TransferCacheManager) : TransferCacheManager :=
  { m with
    use_ringbuffer := flag,
    cache := fun i =>
      if i < P.N then
        if flag then .rbtc (initRingBufferTransferCache P i)
        else .tc (initTransferCache P i)
      else m.cache i }

namespace TransferCacheManager

def setSlot (m : TransferCacheManager) (cl : Nat) (s : CacheSlot) :
    TransferCacheManager :=
  { m with cache := fun i => if i = cl then s else m.cache i }

/-- Forward a batch of pointers to the CentralFreeList of class `cl`. -/
def pushFreelist (m : TransferCacheManager) (cl : Nat) (fwd : List Ptr) :
    TransferCacheManager :=
  { m with freelist := fun i =>
      if i = cl then centralFreeListInsertRange (m.freelist i) fwd
      else m.freelist i }

/-- `TransferCacheManager::InsertRange` (src/tcmalloc/transfer_cache.h lines
82-88): dispatch on `use_ringbuffer_` to the corresponding union member.
Reading the union member that was not constructed is undefined behaviour in
the source; the model makes that case a no-op (it is unreachable once `Init`
has run). -/
def InsertRange (m : TransferCacheManager) (cl : Nat) (batch : List Ptr) :
    TransferCacheManager :=
  if m.use_ringbuffer then
    match m.cache cl with
    | .rbtc c =>
        let s := c.InsertRange batch
        (m.setSlot cl (.rbtc s.1)).pushFreelist cl s.2
    | _ => m
  else
    match m.cache cl with
    | .tc c =>
        let s := c.InsertRange batch
        (m.setSlot cl (.tc s.1)).pushFreelist cl s.2
    | _ => m

/-- `TransferCacheManager::RemoveRange` (src/tcmalloc/transfer_cache.h lines
90-96): dispatch on `use_ringbuffer_`; returns the new state and the batch
of removed pointers (the C++ return value is their count). -/
def RemoveRange (m : TransferCacheManager) (cl : Nat) (n : Nat) :
    TransferCacheManager × List Ptr :=
  if m.use_ringbuffer then
    match m.cache cl with
    | .rbtc c =>
        let s := c.RemoveRange n
        (m.setSlot cl (.rbtc s.1), s.2)
    | _ => (m, [])
  else
    match m.cache cl with
    | .tc c =>
        let s := c.RemoveRange n
        (m.setSlot cl (.tc s.1), s.2)
    | _ => (m, [])

/-- `TransferCacheManager::tc_length` (src/tcmalloc/transfer_cache.h lines
100-106). -/
def tc_length (m : TransferCacheManager) (cl : Nat) : Nat :=
  if m.use_ringbuffer then
    match m.cache cl with
    | .rbtc c => c.tc_length
    | _ => 0
  else
    match m.cache cl with
    | .tc c => c.tc_length
    | _ => 0

/-- `TransferCacheManager::GetHitRateStats` (src/tcmalloc/transfer_cache.h
lines 108-114). -/
def GetHitRateStats (m : TransferCacheManager) (cl : Nat) :
    TransferCacheStats :=
  if m.use_ringbuffer then
    match m.cache cl with
    | .rbtc c => c.stats
    | _ => ⟨0, 0, 0, 0⟩
  else
    match m.cache cl with
    | .tc c => c.stats
    | _ => ⟨0, 0, 0, 0⟩

/-- `TransferCacheManager::central_freelist` (src/tcmalloc/transfer_cache.h
lines 116-122): the read-only handle to class `cl`'s CentralFreeList,
observed here as its contents. -/
def central_freelist (m : TransferCacheManager) (cl : Nat) : List Ptr :=
  m.freelist cl

/-- `TransferCacheManager::ShrinkCache` (src/tcmalloc/transfer_cache.h lines
126-132). -/
def ShrinkCache (m : TransferCacheManager) (cl : Nat) :
    TransferCacheManager × Bool :=
  if m.use_ringbuffer then
    match m.cache cl with
    | .rbtc c =>
        let s := c.ShrinkCache
        (m.setSlot cl (.rbtc s.1), s.2)
    | _ => (m, false)
  else
    match m.cache cl with
    | .tc c =>
        let s := c.ShrinkCache
        (m.setSlot cl (.tc s.1), s.2)
    | _ => (m, false)

/-- `TransferCacheManager::GrowCache` (src/tcmalloc/transfer_cache.h lines
133-139). -/
def GrowCache (m : TransferCacheManager) (cl : Nat) :
    TransferCacheManager × Bool :=
  if m.use_ringbuffer then
    match m.cache cl with
    | .rbtc c =>
        let s := c.GrowCache
        (m.setSlot cl (.rbtc s.1), s.2)
    | _ => (m, false)
  else
    match m.cache cl with
    | .tc c =>
        let s := c.GrowCache
        (m.setSlot cl (.tc s.1), s.2)
    | _ => (m, false)

/-- The current capacity of class `cl`'s backend (a projection used to state
the capacity claims; reads the live union member like the dispatchers do). -/
def capacityOf (m : TransferCacheManager) (cl : Nat) : Nat :=
  match m.cache cl with
  | .dummy => 0
  | .tc c => c.capacity
  | .rbtc c => c.capacity

/-- The stored pointers of class `cl`'s backend, oldest first. -/
def slotsOf (m : TransferCacheManager) (cl : Nat) : List Ptr :=
  match m.cache cl with
  | .dummy => []
  | .tc c => c.slots
  | .rbtc c => c.toList

end TransferCacheManager

/-! ## Eviction-victim selection -/

/-- The cyclic scan order over `[0, N)` starting at `start`. -/
def scanOrder (N start : Nat) : List Nat :=
  (List.range N).map (fun j => (start + j) % N)

/-- Modelled from the spec: the body of
`TransferCacheManager::DetermineSizeClassToEvict` (declared at
src/tcmalloc/transfer_cache.h line 125; its definition is not under src/).
"Starting at the current value of `next_to_evict` (atomically fetched and
advanced, wrapping modulo `N`), scan size classes in that cyclic order; skip
any class already at minimum capacity (0) or otherwise ineligible; return
the first eligible class.  If none found after a full cycle, signal
'no victim' rather than looping forever."  Returns the chosen class (or
`none`) and the manager with the advanced cursor. -/
def TransferCacheManager.DetermineSizeClassToEvict (P : Params)
    (m : TransferCacheManager) : Option Nat × TransferCacheManager :=
  ((scanOrder P.N (m.next_to_evict % P.N)).find?
      (fun c => decide (0 < m.capacityOf c)),
   { m with next_to_evict := (m.next_to_evict + 1) % P.N })

/-! ## Operation traces and observables -/

/-- One call into the manager's public operation set. -/
inductive Op where
  | insertRange (cl : Nat) (batch : List Ptr)
  | removeRange (cl : Nat) (n : Nat)
  | tcLength (cl : Nat)
  | getHitRateStats (cl : Nat)
  | centralFreelist (cl : Nat)
  | growCache (cl : Nat)
  | shrinkCache (cl : Nat)
deriving DecidableEq

/-- The externally observable result of one operation. -/
inductive Obs where
  | unit
  | removed (out : List Ptr)
  | len (n : Nat)
  | stats (s : TransferCacheStats)
  | freelistView (objs : List Ptr)
  | ok (b : Bool)
deriving DecidableEq

def Obs.count : Obs → Nat
  | .removed out => out.length
  | _ => 0

def Obs.outList : Obs → List Ptr
  | .removed out => out
  | _ => []

/-- Execute one operation against the manager. -/
def TransferCacheManager.stepOp (m : TransferCacheManager) :
    Op → TransferCacheManager × Obs
  | .insertRange cl batch => (m.InsertRange cl batch, .unit)
  | .removeRange cl n =>
      let s := m.RemoveRange cl n
      (s.1, .removed s.2)
  | .tcLength cl => (m, .len (m.tc_length cl))
  | .getHitRateStats cl => (m, .stats (m.GetHitRateStats cl))
  | .centralFreelist cl => (m, .freelistView (m.central_freelist cl))
  | .growCache cl =>
      let s := m.GrowCache cl
      (s.1, .ok s.2)
  | .shrinkCache cl =>
      let s := m.ShrinkCache cl
      (s.1, .ok s.2)

/-- Execute a trace of operations, collecting the observables. -/
def TransferCacheManager.runTrace (m : TransferCacheManager) :
    List Op → TransferCacheManager × List Obs
  | [] => (m, [])
  | op :: ops =>
      let s := m.stepOp op
      let rest := s.1.runTrace ops
      (rest.1, s.2 :: rest.2)

/-! ## The TCMALLOC_SMALL_BUT_SLOW build -/

/-- The small-memory `TransferCacheManager`
(src/tcmalloc/transfer_cache.h lines 157-189): no cache layer at all, just
the array of per-class CentralFreeLists. -/
structure SmallTransferCacheManager where
  freelist : Nat → List Ptr

namespace SmallTransferCacheManager

/-- Lines 169-171: `InsertRange` delegates directly to
`freelist_[size_class].InsertRange(batch)`. -/
def InsertRange (m : SmallTransferCacheManager) (cl : Nat)
    (batch : List Ptr) : SmallTransferCacheManager :=
  { freelist := fun i =>
      if i = cl then centralFreeListInsertRange (m.freelist i) batch
      else m.freelist i }

/-- Lines 173-175: `RemoveRange` delegates directly to
`freelist_[size_class].RemoveRange(batch, n)`. -/
def RemoveRange (m : SmallTransferCacheManager) (cl : Nat) (n : Nat) :
    SmallTransferCacheManager × List Ptr :=
  let s := centralFreeListRemoveRange (m.freelist cl) n
  ({ freelist := fun i => if i = cl then s.1 else m.freelist i }, s.2)

/-- Line 177: `static constexpr size_t tc_length(int size_class)
{ return 0; }`. -/
def tc_length (m : SmallTransferCacheManager) (cl : Nat) : Nat := 0

/-- Lines 179-181: `GetHitRateStats` returns `{0, 0, 0, 0}`. -/
def GetHitRateStats (m : SmallTransferCacheManager) (cl : Nat) :
    TransferCacheStats := ⟨0, 0, 0, 0⟩

end SmallTransferCacheManager

/-! ## Helper lemmas: circular-buffer indexing -/

/-- Two ring positions whose offsets differ by less than a full turn are
distinct physical slots. -/
lemma ring_index_ne (size a d : Nat) (hd0 : 0 < d) (hds : d < size) :
    a % size ≠ (a + d) % size := by
  intro h
  have hmod : Nat.ModEq size a (a + d) := h
  have hdvd : size ∣ (a + d - a) :=
    (Nat.modEq_iff_dvd' (Nat.le_add_right a d)).mp hmod
  have : size ∣ d := by simpa using hdvd
  exact absurd (Nat.le_of_dvd hd0 this) (by omega)

namespace RingBufferTransferCache

lemma writeSlots_untouched (size : Nat) :
    ∀ (batch : List Ptr) (pos : Nat) (data : Nat → Ptr) (i : Nat),
      (∀ j, j < batch.length → i ≠ (pos + j) % size) →
      writeSlots size data pos batch i = data i := by
  intro batch
  induction batch with
  | nil => intro pos data i _; rfl
  | cons p rest ih =>
      intro pos data i h
      show writeSlots size (fun k => if k = pos % size then p else data k)
        (pos + 1) rest i = data i
      rw [ih (pos + 1) _ i ?_]
      · have h0 : i ≠ pos % size := by
          have := h 0 (by simp)
          simpa using this
        simp [h0]
      · intro j hj
        have := h (j + 1) (by simpa using Nat.succ_lt_succ hj)
        have harith : pos + (j + 1) = pos + 1 + j := by omega
        rwa [harith] at this

lemma writeSlots_hit (size : Nat) :
    ∀ (batch : List Ptr) (pos : Nat) (data : Nat → Ptr) (j : Nat),
      batch.length ≤ size → j < batch.length →
      writeSlots size data pos batch ((pos + j) % size) = batch.getD j 0 := by
  intro batch
  induction batch with
  | nil => intro pos data j _ hj; simp at hj
  | cons p rest ih =>
      intro pos data j hlen hj
      show writeSlots size (fun k => if k = pos % size then p else data k)
        (pos + 1) rest ((pos + j) % size) = (p :: rest).getD j 0
      match j with
      | 0 =>
          have hpos : pos + 0 = pos := by omega
          rw [hpos]
          rw [writeSlots_untouched size rest (pos + 1) _ (pos % size) ?_]
          · simp
          · intro j' hj'
            have harith : pos + 1 + j' = pos + (1 + j') := by omega
            rw [harith]
            exact ring_index_ne size pos (1 + j') (by omega)
              (by simp at hlen; omega)
      | j' + 1 =>
          have harith : pos + (j' + 1) = pos + 1 + j' := by omega
          rw [harith]
          rw [ih (pos + 1) _ j' (by simp at hlen; omega) (by simp at hj; omega)]
          rfl

lemma toList_length (c : RingBufferTransferCache) :
    c.toList.length = c.len := by
  simp [toList]

/-- The number of objects an insert stores never pushes the live region past
the physical buffer. -/
lemma insert_fit_le (c : RingBufferTransferCache) (b : Nat) (hwf : c.Wf) :
    c.len + min b (c.capacity - c.len) ≤ c.size := by
  obtain ⟨h1, h2, _⟩ := hwf
  omega

/-- Inserting appends the stored prefix of the batch to the abstract list. -/
lemma toList_InsertRange (c : RingBufferTransferCache) (batch : List Ptr)
    (hwf : c.Wf) :
    (c.InsertRange batch).1.toList =
      c.toList ++ batch.take (min batch.length (c.capacity - c.len)) := by
  have hfits := insert_fit_le c batch.length hwf
  set fit := min batch.length (c.capacity - c.len) with hfit
  have hfitb : fit ≤ batch.length := by omega
  apply List.ext_getElem
  · simp [InsertRange, toList_length, ← hfit]
    omega
  · intro i h1 h2
    have hi : i < c.len + fit := by
      simpa [InsertRange, toList_length, ← hfit] using h1
    have hLHS : (c.InsertRange batch).1.toList[i] =
        writeSlots c.size c.data (c.start + c.len) (batch.take fit)
          ((c.start + i) % c.size) := by
      simp [InsertRange, toList, ← hfit]
    rw [hLHS]
    by_cases hcase : i < c.len
    · rw [writeSlots_untouched c.size (batch.take fit) (c.start + c.len)
        c.data ((c.start + i) % c.size) ?_]
      · rw [List.getElem_append_left (by simpa [toList_length])]
        simp [toList]
      · intro j hj
        have hjfit : j < fit := by simpa [hfitb] using hj
        have harith : c.start + c.len + j = (c.start + i) + (c.len + j - i) := by
          omega
        rw [harith]
        exact ring_index_ne c.size (c.start + i) (c.len + j - i) (by omega)
          (by omega)
    · have hlen2 : i - c.len < fit := by omega
      have harith : c.start + i = (c.start + c.len) + (i - c.len) := by omega
      rw [harith]
      rw [writeSlots_hit c.size (batch.take fit) (c.start + c.len) c.data
        (i - c.len) (by simpa [hfitb] using Nat.le_trans (by omega) hfits)
        (by simpa [hfitb])]
      rw [List.getElem_append_right (by simpa [toList_length] using hcase)]
      rw [List.getD_eq_getElem _ _ (by simpa [hfitb])]
      simp [toList_length]

/-- Removing truncates the abstract list from the most-recent end. -/
lemma toList_RemoveRange (c : RingBufferTransferCache) (n : Nat) :
    (c.RemoveRange n).1.toList = c.toList.take (c.len - min n c.len) := by
  have : c.toList.take (c.len - min n c.len) =
      ((List.range c.len).map
        (fun j => c.data ((c.start + j) % c.size))).take (c.len - min n c.len) := by
    simp [toList]
  rw [this, ← List.map_take, List.take_range]
  simp [RemoveRange, toList]

/-- The removed objects are the reversed most-recent suffix of the abstract
list. -/
lemma out_RemoveRange (c : RingBufferTransferCache) (n : Nat) :
    (c.RemoveRange n).2 = (c.toList.drop (c.len - min n c.len)).reverse := by
  set r := min n c.len with hr
  have hrlen : r ≤ c.len := by omega
  apply List.ext_getElem
  · simp [RemoveRange, toList_length, ← hr]
    omega
  · intro i h1 h2
    have hi : i < r := by simpa [RemoveRange, ← hr] using h1
    have hLHS : (c.RemoveRange n).2[i] =
        c.data ((c.start + (c.len - 1 - i)) % c.size) := by
      simp [RemoveRange, ← hr]
    rw [hLHS, List.getElem_reverse, List.getElem_drop]
    simp [toList, toList_length]
    congr 2
    omega

end RingBufferTransferCache

/-! ## Helper lemmas: invariant preservation -/

namespace RingBufferTransferCache

lemma Wf_InsertRange (c : RingBufferTransferCache) (batch : List Ptr)
    (hwf : c.Wf) : (c.InsertRange batch).1.Wf := by
  have := insert_fit_le c batch.length hwf
  obtain ⟨h1, h2, h3⟩ := hwf
  exact ⟨by simpa [InsertRange], by simpa [InsertRange], by simpa [InsertRange]⟩

lemma Wf_RemoveRange (c : RingBufferTransferCache) (n : Nat)
    (hwf : c.Wf) : (c.RemoveRange n).1.Wf := by
  obtain ⟨h1, h2, h3⟩ := hwf
  refine ⟨?_, by simpa [RemoveRange], by simpa [RemoveRange]⟩
  simp [RemoveRange]
  omega

lemma Wf_GrowCache (c : RingBufferTransferCache) (hwf : c.Wf) :
    (c.GrowCache).1.Wf := by
  obtain ⟨h1, h2, h3⟩ := hwf
  unfold GrowCache
  split
  · exact ⟨h1, by simp; omega, by simpa⟩
  · exact ⟨h1, h2, h3⟩

lemma Wf_ShrinkCache (c : RingBufferTransferCache) (hwf : c.Wf) :
    (c.ShrinkCache).1.Wf := by
  obtain ⟨h1, h2, h3⟩ := hwf
  unfold ShrinkCache
  split
  · exact ⟨h1, h2, h3⟩
  · exact ⟨h1, by simp; omega, by simpa⟩

end RingBufferTransferCache

/-! ## Helper lemmas: backend simulation -/

/-- The simulation relation between the two backend variants: same abstract
contents (the Legacy slot list is the ring buffer's abstraction), same
capacities, same growth unit, same counters, and a well-formed ring. -/
def Sim (l : TransferCache) (r : RingBufferTransferCache) : Prop :=
  l.slots = r.toList ∧ l.capacity = r.capacity ∧ l.capMax = r.capMax ∧
    l.unit = r.unit ∧ l.stats = r.stats ∧ r.Wf

lemma Sim.tcLength {l : TransferCache} {r : RingBufferTransferCache}
    (h : Sim l r) : l.tc_length = r.tc_length := by
  obtain ⟨hs, _, _, _, _, _⟩ := h
  simp [TransferCache.tc_length, RingBufferTransferCache.tc_length, hs,
    RingBufferTransferCache.toList_length]

lemma Sim.InsertRange {l : TransferCache} {r : RingBufferTransferCache}
    (h : Sim l r) (batch : List Ptr) :
    Sim (l.InsertRange batch).1 (r.InsertRange batch).1 ∧
      (l.InsertRange batch).2 = (r.InsertRange batch).2 := by
  obtain ⟨hs, hc, hm, hu, hst, hwf⟩ := h
  have hlen : l.slots.length = r.len := by
    rw [hs, RingBufferTransferCache.toList_length]
  have hfit : min batch.length (l.capacity - l.slots.length) =
      min batch.length (r.capacity - r.len) := by rw [hc, hlen]
  refine ⟨⟨?_, ?_, ?_, ?_, ?_, ?_⟩, ?_⟩
  · rw [RingBufferTransferCache.toList_InsertRange r batch hwf]
    simp only [TransferCache.InsertRange, ← hfit, hs]
  · simpa [TransferCache.InsertRange, RingBufferTransferCache.InsertRange]
  · simpa [TransferCache.InsertRange, RingBufferTransferCache.InsertRange]
  · simpa [TransferCache.InsertRange, RingBufferTransferCache.InsertRange]
  · simp only [TransferCache.InsertRange, RingBufferTransferCache.InsertRange,
      ← hfit, hst]
  · exact RingBufferTransferCache.Wf_InsertRange r batch hwf
  · simp only [TransferCache.InsertRange, RingBufferTransferCache.InsertRange,
      ← hfit]

lemma Sim.RemoveRange {l : TransferCache} {r : RingBufferTransferCache}
    (h : Sim l r) (n : Nat) :
    Sim (l.RemoveRange n).1 (r.RemoveRange n).1 ∧
      (l.RemoveRange n).2 = (r.RemoveRange n).2 := by
  obtain ⟨hs, hc, hm, hu, hst, hwf⟩ := h
  have hlen : l.slots.length = r.len := by
    rw [hs, RingBufferTransferCache.toList_length]
  have hr : min n l.slots.length = min n r.len := by rw [hlen]
  refine ⟨⟨?_, ?_, ?_, ?_, ?_, ?_⟩, ?_⟩
  · rw [RingBufferTransferCache.toList_RemoveRange r n]
    simp only [TransferCache.RemoveRange, hs,
      RingBufferTransferCache.toList_length, hr]
  · simpa [TransferCache.RemoveRange, RingBufferTransferCache.RemoveRange]
  · simpa [TransferCache.RemoveRange, RingBufferTransferCache.RemoveRange]
  · simpa [TransferCache.RemoveRange, RingBufferTransferCache.RemoveRange]
  · simp only [TransferCache.RemoveRange, RingBufferTransferCache.RemoveRange,
      hst, hlen]
  · exact RingBufferTransferCache.Wf_RemoveRange r n hwf
  · rw [RingBufferTransferCache.out_RemoveRange r n]
    simp only [TransferCache.RemoveRange, hs,
      RingBufferTransferCache.toList_length, hr]

lemma Sim.GrowCache {l : TransferCache} {r : RingBufferTransferCache}
    (h : Sim l r) :
    Sim (l.GrowCache).1 (r.GrowCache).1 ∧ (l.GrowCache).2 = (r.GrowCache).2 := by
  obtain ⟨hs, hc, hm, hu, hst, hwf⟩ := h
  by_cases hcond : r.capacity + r.unit ≤ r.capMax
  · have hl : l.capacity + l.unit ≤ l.capMax := by rw [hc, hm, hu]; exact hcond
    simp only [TransferCache.GrowCache, RingBufferTransferCache.GrowCache,
      if_pos hcond, if_pos hl]
    refine ⟨⟨?_, ?_, hm, hu, hst, hwf.1, ?_, hwf.2.2⟩, trivial⟩
    · simpa [RingBufferTransferCache.toList] using hs
    · show l.capacity + l.unit = r.capacity + r.unit
      rw [hc, hu]
    · show r.capacity + r.unit ≤ r.size
      have := hwf.2.2
      omega
  · have hl : ¬l.capacity + l.unit ≤ l.capMax := by rw [hc, hm, hu]; exact hcond
    simp only [TransferCache.GrowCache, RingBufferTransferCache.GrowCache,
      if_neg hcond, if_neg hl]
    exact ⟨⟨hs, hc, hm, hu, hst, hwf⟩, trivial⟩

lemma Sim.ShrinkCache {l : TransferCache} {r : RingBufferTransferCache}
    (h : Sim l r) :
    Sim (l.ShrinkCache).1 (r.ShrinkCache).1 ∧
      (l.ShrinkCache).2 = (r.ShrinkCache).2 := by
  obtain ⟨hs, hc, hm, hu, hst, hwf⟩ := h
  by_cases hcond : r.capacity = 0
  · have hl : l.capacity = 0 := by rw [hc]; exact hcond
    simp only [TransferCache.ShrinkCache, RingBufferTransferCache.ShrinkCache,
      if_pos hcond, if_pos hl]
    exact ⟨⟨hs, hc, hm, hu, hst, hwf⟩, trivial⟩
  · have hl : ¬l.capacity = 0 := by rw [hc]; exact hcond
    simp only [TransferCache.ShrinkCache, RingBufferTransferCache.ShrinkCache,
      if_neg hcond, if_neg hl]
    refine ⟨⟨?_, ?_, hm, hu, hst, hwf.1, ?_, hwf.2.2⟩, trivial⟩
    · simpa [RingBufferTransferCache.toList] using hs
    · show l.capacity - l.unit = r.capacity - r.unit
      rw [hc, hu]
    · show r.capacity - r.unit ≤ r.size
      have := hwf.2.1
      omega

/-! ## Helper lemmas: manager state updates -/

namespace TransferCacheManager

@[simp] lemma setSlot_use (m : TransferCacheManager) (cl : Nat) (s : CacheSlot) :
    (m.setSlot cl s).use_ringbuffer = m.use_ringbuffer := rfl

@[simp] lemma setSlot_evict (m : TransferCacheManager) (cl : Nat) (s : CacheSlot) :
    (m.setSlot cl s).next_to_evict = m.next_to_evict := rfl

@[simp] lemma setSlot_freelist (m : TransferCacheManager) (cl : Nat) (s : CacheSlot) :
    (m.setSlot cl s).freelist = m.freelist := rfl

@[simp] lemma setSlot_cache (m : TransferCacheManager) (cl : Nat) (s : CacheSlot)
    (i : Nat) : (m.setSlot cl s).cache i = if i = cl then s else m.cache i := rfl

@[simp] lemma pushFreelist_use (m : TransferCacheManager) (cl : Nat) (fwd : List Ptr) :
    (m.pushFreelist cl fwd).use_ringbuffer = m.use_ringbuffer := rfl

@[simp] lemma pushFreelist_evict (m : TransferCacheManager) (cl : Nat) (fwd : List Ptr) :
    (m.pushFreelist cl fwd).next_to_evict = m.next_to_evict := rfl

@[simp] lemma pushFreelist_cache (m : TransferCacheManager) (cl : Nat) (fwd : List Ptr)
    (i : Nat) : (m.pushFreelist cl fwd).cache i = m.cache i := rfl

@[simp] lemma pushFreelist_freelist (m : TransferCacheManager) (cl : Nat)
    (fwd : List Ptr) (i : Nat) :
    (m.pushFreelist cl fwd).freelist i =
      if i = cl then centralFreeListInsertRange (m.freelist i) fwd
      else m.freelist i := rfl

end TransferCacheManager

/-! ## Helper lemmas: manager-level simulation -/

/-- Simulation between the union slots of the Legacy-flavoured manager and
the RingBuffer-flavoured manager. -/
def SlotSim : CacheSlot → CacheSlot → Prop
  | .dummy, .dummy => True
  | .tc l, .rbtc r => Sim l r
  | _, _ => False

/-- Simulation between a manager initialized with `use_ringbuffer = false`
and one initialized with `use_ringbuffer = true`. -/
def MgrSim (mf mt : TransferCacheManager) : Prop :=
  mf.use_ringbuffer = false ∧ mt.use_ringbuffer = true ∧
    mf.next_to_evict = mt.next_to_evict ∧
    mf.freelist = mt.freelist ∧
    ∀ i, SlotSim (mf.cache i) (mt.cache i)

lemma MgrSim_Init (P : Params) :
    MgrSim (TransferCacheManager.ctor.Init P false)
      (TransferCacheManager.ctor.Init P true) := by
  refine ⟨rfl, rfl, rfl, rfl, ?_⟩
  intro i
  simp only [TransferCacheManager.Init, TransferCacheManager.ctor]
  by_cases hi : i < P.N
  · simp only [if_pos hi, if_pos, if_neg]
    show Sim (initTransferCache P i) (initRingBufferTransferCache P i)
    refine ⟨?_, rfl, rfl, rfl, rfl, ?_, ?_, ?_⟩
    · simp [initTransferCache, initRingBufferTransferCache,
        RingBufferTransferCache.toList]
    · simp [initRingBufferTransferCache]
    · simp [initRingBufferTransferCache]
    · simp [initRingBufferTransferCache]
  · simp only [if_neg hi]
    trivial

lemma SlotSim_inv {a b : CacheSlot} (h : SlotSim a b) :
    (a = .dummy ∧ b = .dummy) ∨
      ∃ l r, a = .tc l ∧ b = .rbtc r ∧ Sim l r := by
  cases a with
  | dummy =>
      cases b with
      | dummy => exact Or.inl ⟨rfl, rfl⟩
      | tc l => exact h.elim
      | rbtc r => exact h.elim
  | tc l =>
      cases b with
      | dummy => exact h.elim
      | tc l2 => exact h.elim
      | rbtc r => exact Or.inr ⟨l, r, rfl, rfl, h⟩
  | rbtc r =>
      cases b with
      | dummy => exact h.elim
      | tc l2 => exact h.elim
      | rbtc r2 => exact h.elim

lemma MgrSim_stepOp {mf mt : TransferCacheManager} (h : MgrSim mf mt)
    (op : Op) :
    MgrSim (mf.stepOp op).1 (mt.stepOp op).1 ∧
      (mf.stepOp op).2 = (mt.stepOp op).2 := by
  obtain ⟨hf, ht, he, hfl, hslots⟩ := h
  cases op with
  | insertRange cl batch =>
      rcases SlotSim_inv (hslots cl) with ⟨ha, hb⟩ | ⟨l, r, ha, hb, hsim⟩
      · simp only [TransferCacheManager.stepOp,
          TransferCacheManager.InsertRange, hf, ht, ha, hb]
        simp only [Bool.false_eq_true, if_false, if_true]
        exact ⟨⟨hf, ht, he, hfl, hslots⟩, trivial⟩
      · obtain ⟨hsim2, hout⟩ := hsim.InsertRange batch
        simp only [TransferCacheManager.stepOp,
          TransferCacheManager.InsertRange, hf, ht, ha, hb]
        simp only [Bool.false_eq_true, if_false, if_true]
        refine ⟨⟨by simp [hf], by simp [ht], by simpa using he, ?_, ?_⟩,
          trivial⟩
        · funext i
          simp only [TransferCacheManager.pushFreelist_freelist,
            TransferCacheManager.setSlot_freelist, hfl, hout]
        · intro i
          by_cases hicl : i = cl
          · simp only [TransferCacheManager.pushFreelist_cache,
              TransferCacheManager.setSlot_cache, if_pos hicl]
            exact hsim2
          · simp only [TransferCacheManager.pushFreelist_cache,
              TransferCacheManager.setSlot_cache, if_neg hicl]
            exact hslots i
  | removeRange cl n =>
      rcases SlotSim_inv (hslots cl) with ⟨ha, hb⟩ | ⟨l, r, ha, hb, hsim⟩
      · simp only [TransferCacheManager.stepOp,
          TransferCacheManager.RemoveRange, hf, ht, ha, hb]
        simp only [Bool.false_eq_true, if_false, if_true]
        exact ⟨⟨hf, ht, he, hfl, hslots⟩, trivial⟩
      · obtain ⟨hsim2, hout⟩ := hsim.RemoveRange n
        simp only [TransferCacheManager.stepOp,
          TransferCacheManager.RemoveRange, hf, ht, ha, hb]
        simp only [Bool.false_eq_true, if_false, if_true]
        refine ⟨⟨by simp [hf], by simp [ht], by simpa using he,
          by simpa using hfl, ?_⟩, by rw [hout]⟩
        intro i
        by_cases hicl : i = cl
        · simp only [TransferCacheManager.setSlot_cache, if_pos hicl]
          exact hsim2
        · simp only [TransferCacheManager.setSlot_cache, if_neg hicl]
          exact hslots i
  | tcLength cl =>
      refine ⟨⟨hf, ht, he, hfl, hslots⟩, ?_⟩
      rcases SlotSim_inv (hslots cl) with ⟨ha, hb⟩ | ⟨l, r, ha, hb, hsim⟩
      · simp [TransferCacheManager.stepOp, TransferCacheManager.tc_length,
          hf, ht, ha, hb]
      · simp only [TransferCacheManager.stepOp,
          TransferCacheManager.tc_length, hf, ht, ha, hb]
        simp only [Bool.false_eq_true, if_false, if_true]
        show Obs.len l.tc_length = Obs.len r.tc_length
        rw [hsim.tcLength]
  | getHitRateStats cl =>
      refine ⟨⟨hf, ht, he, hfl, hslots⟩, ?_⟩
      rcases SlotSim_inv (hslots cl) with ⟨ha, hb⟩ | ⟨l, r, ha, hb, hsim⟩
      · simp [TransferCacheManager.stepOp,
          TransferCacheManager.GetHitRateStats, hf, ht, ha, hb]
      · simp only [TransferCacheManager.stepOp,
          TransferCacheManager.GetHitRateStats, hf, ht, ha, hb]
        simp only [Bool.false_eq_true, if_false, if_true]
        show Obs.stats l.stats = Obs.stats r.stats
        rw [hsim.2.2.2.2.1]
  | centralFreelist cl =>
      refine ⟨⟨hf, ht, he, hfl, hslots⟩, ?_⟩
      simp only [TransferCacheManager.stepOp,
        TransferCacheManager.central_freelist, hfl]
  | growCache cl =>
      rcases SlotSim_inv (hslots cl) with ⟨ha, hb⟩ | ⟨l, r, ha, hb, hsim⟩
      · simp only [TransferCacheManager.stepOp,
          TransferCacheManager.GrowCache, hf, ht, ha, hb]
        simp only [Bool.false_eq_true, if_false, if_true]
        exact ⟨⟨hf, ht, he, hfl, hslots⟩, trivial⟩
      · obtain ⟨hsim2, hout⟩ := hsim.GrowCache
        simp only [TransferCacheManager.stepOp,
          TransferCacheManager.GrowCache, hf, ht, ha, hb]
        simp only [Bool.false_eq_true, if_false, if_true]
        refine ⟨⟨by simp [hf], by simp [ht], by simpa using he,
          by simpa using hfl, ?_⟩, by rw [hout]⟩
        intro i
        by_cases hicl : i = cl
        · simp only [TransferCacheManager.setSlot_cache, if_pos hicl]
          exact hsim2
        · simp only [TransferCacheManager.setSlot_cache, if_neg hicl]
          exact hslots i
  | shrinkCache cl =>
      rcases SlotSim_inv (hslots cl) with ⟨ha, hb⟩ | ⟨l, r, ha, hb, hsim⟩
      · simp only [TransferCacheManager.stepOp,
          TransferCacheManager.ShrinkCache, hf, ht, ha, hb]
        simp only [Bool.false_eq_true, if_false, if_true]
        exact ⟨⟨hf, ht, he, hfl, hslots⟩, trivial⟩
      · obtain ⟨hsim2, hout⟩ := hsim.ShrinkCache
        simp only [TransferCacheManager.stepOp,
          TransferCacheManager.ShrinkCache, hf, ht, ha, hb]
        simp only [Bool.false_eq_true, if_false, if_true]
        refine ⟨⟨by simp [hf], by simp [ht], by simpa using he,
          by simpa using hfl, ?_⟩, by rw [hout]⟩
        intro i
        by_cases hicl : i = cl
        · simp only [TransferCacheManager.setSlot_cache, if_pos hicl]
          exact hsim2
        · simp only [TransferCacheManager.setSlot_cache, if_neg hicl]
          exact hslots i

lemma MgrSim_runTrace {mf mt : TransferCacheManager} (h : MgrSim mf mt) :
    ∀ ops : List Op,
      MgrSim (mf.runTrace ops).1 (mt.runTrace ops).1 ∧
        (mf.runTrace ops).2 = (mt.runTrace ops).2 := by
  intro ops
  induction ops generalizing mf mt with
  | nil => exact ⟨h, rfl⟩
  | cons op rest ih =>
      obtain ⟨h1, h2⟩ := MgrSim_stepOp h op
      obtain ⟨h3, h4⟩ := ih h1
      exact ⟨by simpa [TransferCacheManager.runTrace] using h3,
        by simp [TransferCacheManager.runTrace, h2, h4]⟩

/-! ## Helper lemmas: reachability invariant -/

/-- Well-formedness of a live union slot with respect to the manager's
variant flag: the constructed member is the one the dispatchers will read,
and a ring buffer is structurally well-formed. -/
def SlotOk (flag : Bool) : CacheSlot → Prop
  | .dummy => False
  | .tc _ => flag = false
  | .rbtc r => flag = true ∧ r.Wf

/-- Invariant of every manager state reachable from `Init`: each size class
below `kNumClasses` holds a live, well-formed backend of the selected
variant. -/
def MgrInv (P : Params) (m : TransferCacheManager) : Prop :=
  ∀ i, i < P.N → SlotOk m.use_ringbuffer (m.cache i)

lemma initRing_Wf (P : Params) (i : Nat) :
    (initRingBufferTransferCache P i).Wf := by
  refine ⟨?_, ?_, ?_⟩
  · simp [initRingBufferTransferCache]
  · simp [initRingBufferTransferCache]
  · simp [initRingBufferTransferCache]

lemma MgrInv_Init (P : Params) (flag : Bool) :
    MgrInv P (TransferCacheManager.ctor.Init P flag) := by
  intro i hi
  show SlotOk flag
    (if i < P.N then
      if flag then .rbtc (initRingBufferTransferCache P i)
      else .tc (initTransferCache P i)
    else CacheSlot.dummy)
  rw [if_pos hi]
  cases flag with
  | false => exact rfl
  | true => exact ⟨rfl, initRing_Wf P i⟩

lemma MgrInv_InsertRange (P : Params) {m : TransferCacheManager}
    (h : MgrInv P m) (cl : Nat) (batch : List Ptr) :
    MgrInv P (m.InsertRange cl batch) := by
  intro i hi
  have hx := h i hi
  unfold TransferCacheManager.InsertRange
  by_cases hu : m.use_ringbuffer = true
  · rw [if_pos hu]
    cases hc : m.cache cl with
    | rbtc r =>
        by_cases hicl : i = cl
        · subst hicl
          rw [hc] at hx
          show SlotOk m.use_ringbuffer
            (if i = i then .rbtc (r.InsertRange batch).1 else m.cache i)
          rw [if_pos rfl, hu]
          exact ⟨rfl, RingBufferTransferCache.Wf_InsertRange r batch hx.2⟩
        · show SlotOk m.use_ringbuffer
            (if i = cl then .rbtc (r.InsertRange batch).1 else m.cache i)
          rw [if_neg hicl]
          exact hx
    | tc l => exact hx
    | dummy => exact hx
  · rw [if_neg hu]
    cases hc : m.cache cl with
    | tc l =>
        by_cases hicl : i = cl
        · subst hicl
          rw [hc] at hx
          show SlotOk m.use_ringbuffer
            (if i = i then .tc (l.InsertRange batch).1 else m.cache i)
          rw [if_pos rfl]
          exact hx
        · show SlotOk m.use_ringbuffer
            (if i = cl then .tc (l.InsertRange batch).1 else m.cache i)
          rw [if_neg hicl]
          exact hx
    | rbtc r => exact hx
    | dummy => exact hx

lemma MgrInv_RemoveRange (P : Params) {m : TransferCacheManager}
    (h : MgrInv P m) (cl : Nat) (n : Nat) :
    MgrInv P (m.RemoveRange cl n).1 := by
  intro i hi
  have hx := h i hi
  unfold TransferCacheManager.RemoveRange
  by_cases hu : m.use_ringbuffer = true
  · rw [if_pos hu]
    cases hc : m.cache cl with
    | rbtc r =>
        by_cases hicl : i = cl
        · subst hicl
          rw [hc] at hx
          show SlotOk m.use_ringbuffer
            (if i = i then .rbtc (r.RemoveRange n).1 else m.cache i)
          rw [if_pos rfl, hu]
          exact ⟨rfl, RingBufferTransferCache.Wf_RemoveRange r n hx.2⟩
        · show SlotOk m.use_ringbuffer
            (if i = cl then .rbtc (r.RemoveRange n).1 else m.cache i)
          rw [if_neg hicl]
          exact hx
    | tc l => exact hx
    | dummy => exact hx
  · rw [if_neg hu]
    cases hc : m.cache cl with
    | tc l =>
        by_cases hicl : i = cl
        · subst hicl
          rw [hc] at hx
          show SlotOk m.use_ringbuffer
            (if i = i then .tc (l.RemoveRange n).1 else m.cache i)
          rw [if_pos rfl]
          exact hx
        · show SlotOk m.use_ringbuffer
            (if i = cl then .tc (l.RemoveRange n).1 else m.cache i)
          rw [if_neg hicl]
          exact hx
    | rbtc r => exact hx
    | dummy => exact hx

lemma MgrInv_GrowCache (P : Params) {m : TransferCacheManager}
    (h : MgrInv P m) (cl : Nat) :
    MgrInv P (m.GrowCache cl).1 := by
  intro i hi
  have hx := h i hi
  unfold TransferCacheManager.GrowCache
  by_cases hu : m.use_ringbuffer = true
  · rw [if_pos hu]
    cases hc : m.cache cl with
    | rbtc r =>
        by_cases hicl : i = cl
        · subst hicl
          rw [hc] at hx
          show SlotOk m.use_ringbuffer
            (if i = i then .rbtc (r.GrowCache).1 else m.cache i)
          rw [if_pos rfl, hu]
          exact ⟨rfl, RingBufferTransferCache.Wf_GrowCache r hx.2⟩
        · show SlotOk m.use_ringbuffer
            (if i = cl then .rbtc (r.GrowCache).1 else m.cache i)
          rw [if_neg hicl]
          exact hx
    | tc l => exact hx
    | dummy => exact hx
  · rw [if_neg hu]
    cases hc : m.cache cl with
    | tc l =>
        by_cases hicl : i = cl
        · subst hicl
          rw [hc] at hx
          show SlotOk m.use_ringbuffer
            (if i = i then .tc (l.GrowCache).1 else m.cache i)
          rw [if_pos rfl]
          exact hx
        · show SlotOk m.use_ringbuffer
            (if i = cl then .tc (l.GrowCache).1 else m.cache i)
          rw [if_neg hicl]
          exact hx
    | rbtc r => exact hx
    | dummy => exact hx

lemma MgrInv_ShrinkCache (P : Params) {m : TransferCacheManager}
    (h : MgrInv P m) (cl : Nat) :
    MgrInv P (m.ShrinkCache cl).1 := by
  intro i hi
  have hx := h i hi
  unfold TransferCacheManager.ShrinkCache
  by_cases hu : m.use_ringbuffer = true
  · rw [if_pos hu]
    cases hc : m.cache cl with
    | rbtc r =>
        by_cases hicl : i = cl
        · subst hicl
          rw [hc] at hx
          show SlotOk m.use_ringbuffer
            (if i = i then .rbtc (r.ShrinkCache).1 else m.cache i)
          rw [if_pos rfl, hu]
          exact ⟨rfl, RingBufferTransferCache.Wf_ShrinkCache r hx.2⟩
        · show SlotOk m.use_ringbuffer
            (if i = cl then .rbtc (r.ShrinkCache).1 else m.cache i)
          rw [if_neg hicl]
          exact hx
    | tc l => exact hx
    | dummy => exact hx
  · rw [if_neg hu]
    cases hc : m.cache cl with
    | tc l =>
        by_cases hicl : i = cl
        · subst hicl
          rw [hc] at hx
          show SlotOk m.use_ringbuffer
            (if i = i then .tc (l.ShrinkCache).1 else m.cache i)
          rw [if_pos rfl]
          exact hx
        · show SlotOk m.use_ringbuffer
            (if i = cl then .tc (l.ShrinkCache).1 else m.cache i)
          rw [if_neg hicl]
          exact hx
    | rbtc r => exact hx
    | dummy => exact hx

lemma MgrInv_stepOp (P : Params) {m : TransferCacheManager}
    (h : MgrInv P m) (op : Op) : MgrInv P (m.stepOp op).1 := by
  cases op with
  | insertRange cl batch => exact MgrInv_InsertRange P h cl batch
  | removeRange cl n => exact MgrInv_RemoveRange P h cl n
  | tcLength cl => exact h
  | getHitRateStats cl => exact h
  | centralFreelist cl => exact h
  | growCache cl => exact MgrInv_GrowCache P h cl
  | shrinkCache cl => exact MgrInv_ShrinkCache P h cl

lemma MgrInv_runTrace (P : Params) {m : TransferCacheManager}
    (h : MgrInv P m) (ops : List Op) : MgrInv P (m.runTrace ops).1 := by
  induction ops generalizing m with
  | nil => exact h
  | cons op rest ih =>
      exact ih (MgrInv_stepOp P h op)

/-- Inversion of the reachability invariant at one class. -/
lemma MgrInv_slot (P : Params) {m : TransferCacheManager} (h : MgrInv P m)
    {cl : Nat} (hcl : cl < P.N) :
    (m.use_ringbuffer = false ∧ ∃ l, m.cache cl = .tc l) ∨
      (m.use_ringbuffer = true ∧
        ∃ r, m.cache cl = .rbtc r ∧ r.Wf) := by
  have hx := h cl hcl
  cases hc : m.cache cl with
  | dummy => rw [hc] at hx; exact hx.elim
  | tc l => rw [hc] at hx; exact Or.inl ⟨hx, l, rfl⟩
  | rbtc r => rw [hc] at hx; exact Or.inr ⟨hx.1, r, rfl, hx.2⟩

/-! ## Helper lemmas: flag and variant preservation -/

namespace TransferCacheManager

/-- The capacity maximum of class `cl`'s backend. -/
def capMaxOf (m : TransferCacheManager) (cl : Nat) : Nat :=
  match m.cache cl with
  | .dummy => 0
  | .tc c => c.capMax
  | .rbtc c => c.capMax

/-- The growth unit of class `cl`'s backend. -/
def unitOf (m : TransferCacheManager) (cl : Nat) : Nat :=
  match m.cache cl with
  | .dummy => 0
  | .tc c => c.unit
  | .rbtc c => c.unit

lemma InsertRange_use (m : TransferCacheManager) (cl : Nat)
    (batch : List Ptr) :
    (m.InsertRange cl batch).use_ringbuffer = m.use_ringbuffer := by
  unfold TransferCacheManager.InsertRange
  by_cases hu : m.use_ringbuffer = true
  · rw [if_pos hu]; cases m.cache cl <;> rfl
  · rw [if_neg hu]; cases m.cache cl <;> rfl

lemma RemoveRange_use (m : TransferCacheManager) (cl n : Nat) :
    (m.RemoveRange cl n).1.use_ringbuffer = m.use_ringbuffer := by
  unfold TransferCacheManager.RemoveRange
  by_cases hu : m.use_ringbuffer = true
  · rw [if_pos hu]; cases m.cache cl <;> rfl
  · rw [if_neg hu]; cases m.cache cl <;> rfl

lemma GrowCache_use (m : TransferCacheManager) (cl : Nat) :
    (m.GrowCache cl).1.use_ringbuffer = m.use_ringbuffer := by
  unfold TransferCacheManager.GrowCache
  by_cases hu : m.use_ringbuffer = true
  · rw [if_pos hu]; cases m.cache cl <;> rfl
  · rw [if_neg hu]; cases m.cache cl <;> rfl

lemma ShrinkCache_use (m : TransferCacheManager) (cl : Nat) :
    (m.ShrinkCache cl).1.use_ringbuffer = m.use_ringbuffer := by
  unfold TransferCacheManager.ShrinkCache
  by_cases hu : m.use_ringbuffer = true
  · rw [if_pos hu]; cases m.cache cl <;> rfl
  · rw [if_neg hu]; cases m.cache cl <;> rfl

lemma stepOp_use (m : TransferCacheManager) (op : Op) :
    (m.stepOp op).1.use_ringbuffer = m.use_ringbuffer := by
  cases op with
  | insertRange cl batch => exact InsertRange_use m cl batch
  | removeRange cl n => exact RemoveRange_use m cl n
  | tcLength cl => rfl
  | getHitRateStats cl => rfl
  | centralFreelist cl => rfl
  | growCache cl => exact GrowCache_use m cl
  | shrinkCache cl => exact ShrinkCache_use m cl

lemma runTrace_use (m : TransferCacheManager) (ops : List Op) :
    (m.runTrace ops).1.use_ringbuffer = m.use_ringbuffer := by
  induction ops generalizing m with
  | nil => rfl
  | cons op rest ih =>
      show ((m.stepOp op).1.runTrace rest).1.use_ringbuffer = _
      rw [ih, stepOp_use]

lemma InsertRange_variant (m : TransferCacheManager) (cl : Nat)
    (batch : List Ptr) (i : Nat) :
    ((m.InsertRange cl batch).cache i).variant = (m.cache i).variant := by
  unfold TransferCacheManager.InsertRange
  by_cases hu : m.use_ringbuffer = true
  · rw [if_pos hu]
    cases hc : m.cache cl with
    | rbtc r =>
        by_cases hicl : i = cl
        · subst hicl
          show (if i = i then CacheSlot.rbtc (r.InsertRange batch).1
              else m.cache i).variant = _
          rw [if_pos rfl, hc]
          rfl
        · show (if i = cl then CacheSlot.rbtc (r.InsertRange batch).1
              else m.cache i).variant = _
          rw [if_neg hicl]
    | tc l => rfl
    | dummy => rfl
  · rw [if_neg hu]
    cases hc : m.cache cl with
    | tc l =>
        by_cases hicl : i = cl
        · subst hicl
          show (if i = i then CacheSlot.tc (l.InsertRange batch).1
              else m.cache i).variant = _
          rw [if_pos rfl, hc]
          rfl
        · show (if i = cl then CacheSlot.tc (l.InsertRange batch).1
              else m.cache i).variant = _
          rw [if_neg hicl]
    | rbtc r => rfl
    | dummy => rfl

lemma RemoveRange_variant (m : TransferCacheManager) (cl n : Nat) (i : Nat) :
    ((m.RemoveRange cl n).1.cache i).variant = (m.cache i).variant := by
  unfold TransferCacheManager.RemoveRange
  by_cases hu : m.use_ringbuffer = true
  · rw [if_pos hu]
    cases hc : m.cache cl with
    | rbtc r =>
        by_cases hicl : i = cl
        · subst hicl
          show (if i = i then CacheSlot.rbtc (r.RemoveRange n).1
              else m.cache i).variant = _
          rw [if_pos rfl, hc]
          rfl
        · show (if i = cl then CacheSlot.rbtc (r.RemoveRange n).1
              else m.cache i).variant = _
          rw [if_neg hicl]
    | tc l => rfl
    | dummy => rfl
  · rw [if_neg hu]
    cases hc : m.cache cl with
    | tc l =>
        by_cases hicl : i = cl
        · subst hicl
          show (if i = i then CacheSlot.tc (l.RemoveRange n).1
              else m.cache i).variant = _
          rw [if_pos rfl, hc]
          rfl
        · show (if i = cl then CacheSlot.tc (l.RemoveRange n).1
              else m.cache i).variant = _
          rw [if_neg hicl]
    | rbtc r => rfl
    | dummy => rfl

lemma GrowCache_variant (m : TransferCacheManager) (cl : Nat) (i : Nat) :
    ((m.GrowCache cl).1.cache i).variant = (m.cache i).variant := by
  unfold TransferCacheManager.GrowCache
  by_cases hu : m.use_ringbuffer = true
  · rw [if_pos hu]
    cases hc : m.cache cl with
    | rbtc r =>
        by_cases hicl : i = cl
        · subst hicl
          show (if i = i then CacheSlot.rbtc (r.GrowCache).1
              else m.cache i).variant = _
          rw [if_pos rfl, hc]
          rfl
        · show (if i = cl then CacheSlot.rbtc (r.GrowCache).1
              else m.cache i).variant = _
          rw [if_neg hicl]
    | tc l => rfl
    | dummy => rfl
  · rw [if_neg hu]
    cases hc : m.cache cl with
    | tc l =>
        by_cases hicl : i = cl
        · subst hicl
          show (if i = i then CacheSlot.tc (l.GrowCache).1
              else m.cache i).variant = _
          rw [if_pos rfl, hc]
          rfl
        · show (if i = cl then CacheSlot.tc (l.GrowCache).1
              else m.cache i).variant = _
          rw [if_neg hicl]
    | rbtc r => rfl
    | dummy => rfl

lemma ShrinkCache_variant (m : TransferCacheManager) (cl : Nat) (i : Nat) :
    ((m.ShrinkCache cl).1.cache i).variant = (m.cache i).variant := by
  unfold TransferCacheManager.ShrinkCache
  by_cases hu : m.use_ringbuffer = true
  · rw [if_pos hu]
    cases hc : m.cache cl with
    | rbtc r =>
        by_cases hicl : i = cl
        · subst hicl
          show (if i = i then CacheSlot.rbtc (r.ShrinkCache).1
              else m.cache i).variant = _
          rw [if_pos rfl, hc]
          rfl
        · show (if i = cl then CacheSlot.rbtc (r.ShrinkCache).1
              else m.cache i).variant = _
          rw [if_neg hicl]
    | tc l => rfl
    | dummy => rfl
  · rw [if_neg hu]
    cases hc : m.cache cl with
    | tc l =>
        by_cases hicl : i = cl
        · subst hicl
          show (if i = i then CacheSlot.tc (l.ShrinkCache).1
              else m.cache i).variant = _
          rw [if_pos rfl, hc]
          rfl
        · show (if i = cl then CacheSlot.tc (l.ShrinkCache).1
              else m.cache i).variant = _
          rw [if_neg hicl]
    | rbtc r => rfl
    | dummy => rfl

lemma stepOp_variant (m : TransferCacheManager) (op : Op) (i : Nat) :
    ((m.stepOp op).1.cache i).variant = (m.cache i).variant := by
  cases op with
  | insertRange cl batch => exact InsertRange_variant m cl batch i
  | removeRange cl n => exact RemoveRange_variant m cl n i
  | tcLength cl => rfl
  | getHitRateStats cl => rfl
  | centralFreelist cl => rfl
  | growCache cl => exact GrowCache_variant m cl i
  | shrinkCache cl => exact ShrinkCache_variant m cl i

lemma runTrace_variant (m : TransferCacheManager) (ops : List Op) (i : Nat) :
    ((m.runTrace ops).1.cache i).variant = (m.cache i).variant := by
  induction ops generalizing m with
  | nil => rfl
  | cons op rest ih =>
      show (((m.stepOp op).1.runTrace rest).1.cache i).variant = _
      rw [ih, stepOp_variant]

end TransferCacheManager

/-! ## Helper lemmas: statistics monotonicity -/

/-- Componentwise order on the cumulative counters. -/
def StatsLe (a b : TransferCacheStats) : Prop :=
  a.hits ≤ b.hits ∧ a.misses ≤ b.misses ∧ a.inserts ≤ b.inserts ∧
    a.removes ≤ b.removes

lemma statsLe_refl (a : TransferCacheStats) : StatsLe a a :=
  ⟨Nat.le_refl _, Nat.le_refl _, Nat.le_refl _, Nat.le_refl _⟩

lemma statsLe_trans {a b c : TransferCacheStats} (h1 : StatsLe a b)
    (h2 : StatsLe b c) : StatsLe a c :=
  ⟨Nat.le_trans h1.1 h2.1, Nat.le_trans h1.2.1 h2.2.1,
   Nat.le_trans h1.2.2.1 h2.2.2.1, Nat.le_trans h1.2.2.2 h2.2.2.2⟩

lemma statsLe_onInsert (s : TransferCacheStats) (k : Nat) :
    StatsLe s (s.onInsert k) :=
  ⟨Nat.le_refl _, Nat.le_refl _, Nat.le_add_right _ _, Nat.le_refl _⟩

lemma statsLe_onRemove (s : TransferCacheStats) (n r : Nat) :
    StatsLe s (s.onRemove n r) :=
  ⟨Nat.le_add_right _ _, Nat.le_add_right _ _, Nat.le_refl _,
    Nat.le_add_right _ _⟩

/-- The stats stored in a union slot (zero for the unconstructed slot). -/
def CacheSlot.slotStats : CacheSlot → TransferCacheStats
  | .dummy => ⟨0, 0, 0, 0⟩
  | .tc c => c.stats
  | .rbtc c => c.stats

lemma TransferCache.GrowCache_stats (c : TransferCache) :
    (c.GrowCache).1.stats = c.stats := by
  unfold TransferCache.GrowCache
  split <;> rfl

lemma TransferCache.ShrinkCache_stats (c : TransferCache) :
    (c.ShrinkCache).1.stats = c.stats := by
  unfold TransferCache.ShrinkCache
  split <;> rfl

lemma RingBufferTransferCache.ringGrowCache_stats (c : RingBufferTransferCache) :
    (c.GrowCache).1.stats = c.stats := by
  unfold RingBufferTransferCache.GrowCache
  split <;> rfl

lemma RingBufferTransferCache.ringShrinkCache_stats
    (c : RingBufferTransferCache) : (c.ShrinkCache).1.stats = c.stats := by
  unfold RingBufferTransferCache.ShrinkCache
  split <;> rfl

namespace TransferCacheManager

lemma GetHitRateStats_eq (m : TransferCacheManager) (cl : Nat) :
    m.GetHitRateStats cl =
      if (m.cache cl).variant =
          (if m.use_ringbuffer then Variant.ring else Variant.legacy)
        then (m.cache cl).slotStats else ⟨0, 0, 0, 0⟩ := by
  unfold TransferCacheManager.GetHitRateStats
  by_cases hu : m.use_ringbuffer = true
  · rw [if_pos hu, hu]
    cases m.cache cl with
    | dummy => simp [CacheSlot.variant, CacheSlot.slotStats]
    | tc l => simp [CacheSlot.variant, CacheSlot.slotStats]
    | rbtc r => simp [CacheSlot.variant, CacheSlot.slotStats]
  · have hu2 : m.use_ringbuffer = false := by
      revert hu; cases m.use_ringbuffer <;> simp
    rw [if_neg hu, hu2]
    cases m.cache cl with
    | dummy => simp [CacheSlot.variant, CacheSlot.slotStats]
    | tc l => simp [CacheSlot.variant, CacheSlot.slotStats]
    | rbtc r => simp [CacheSlot.variant, CacheSlot.slotStats]

lemma slotStats_InsertRange (m : TransferCacheManager) (cl2 : Nat)
    (batch : List Ptr) (cl : Nat) :
    StatsLe ((m.cache cl).slotStats)
      (((m.InsertRange cl2 batch).cache cl).slotStats) := by
  unfold TransferCacheManager.InsertRange
  by_cases hu : m.use_ringbuffer = true
  · rw [if_pos hu]
    cases hc : m.cache cl2 with
    | rbtc r =>
        by_cases hicl : cl = cl2
        · subst hicl
          show StatsLe (m.cache cl).slotStats
            (if cl = cl then CacheSlot.rbtc (r.InsertRange batch).1
              else m.cache cl).slotStats
          rw [if_pos rfl, hc]
          exact statsLe_onInsert r.stats _
        · show StatsLe (m.cache cl).slotStats
            (if cl = cl2 then CacheSlot.rbtc (r.InsertRange batch).1
              else m.cache cl).slotStats
          rw [if_neg hicl]
          exact statsLe_refl _
    | tc l => exact statsLe_refl _
    | dummy => exact statsLe_refl _
  · rw [if_neg hu]
    cases hc : m.cache cl2 with
    | tc l =>
        by_cases hicl : cl = cl2
        · subst hicl
          show StatsLe (m.cache cl).slotStats
            (if cl = cl then CacheSlot.tc (l.InsertRange batch).1
              else m.cache cl).slotStats
          rw [if_pos rfl, hc]
          exact statsLe_onInsert l.stats _
        · show StatsLe (m.cache cl).slotStats
            (if cl = cl2 then CacheSlot.tc (l.InsertRange batch).1
              else m.cache cl).slotStats
          rw [if_neg hicl]
          exact statsLe_refl _
    | rbtc r => exact statsLe_refl _
    | dummy => exact statsLe_refl _

lemma slotStats_RemoveRange (m : TransferCacheManager) (cl2 n cl : Nat) :
    StatsLe ((m.cache cl).slotStats)
      (((m.RemoveRange cl2 n).1.cache cl).slotStats) := by
  unfold TransferCacheManager.RemoveRange
  by_cases hu : m.use_ringbuffer = true
  · rw [if_pos hu]
    cases hc : m.cache cl2 with
    | rbtc r =>
        by_cases hicl : cl = cl2
        · subst hicl
          show StatsLe (m.cache cl).slotStats
            (if cl = cl then CacheSlot.rbtc (r.RemoveRange n).1
              else m.cache cl).slotStats
          rw [if_pos rfl, hc]
          exact statsLe_onRemove r.stats n _
        · show StatsLe (m.cache cl).slotStats
            (if cl = cl2 then CacheSlot.rbtc (r.RemoveRange n).1
              else m.cache cl).slotStats
          rw [if_neg hicl]
          exact statsLe_refl _
    | tc l => exact statsLe_refl _
    | dummy => exact statsLe_refl _
  · rw [if_neg hu]
    cases hc : m.cache cl2 with
    | tc l =>
        by_cases hicl : cl = cl2
        · subst hicl
          show StatsLe (m.cache cl).slotStats
            (if cl = cl then CacheSlot.tc (l.RemoveRange n).1
              else m.cache cl).slotStats
          rw [if_pos rfl, hc]
          exact statsLe_onRemove l.stats n _
        · show StatsLe (m.cache cl).slotStats
            (if cl = cl2 then CacheSlot.tc (l.RemoveRange n).1
              else m.cache cl).slotStats
          rw [if_neg hicl]
          exact statsLe_refl _
    | rbtc r => exact statsLe_refl _
    | dummy => exact statsLe_refl _

lemma slotStats_GrowCache (m : TransferCacheManager) (cl2 cl : Nat) :
    StatsLe ((m.cache cl).slotStats)
      (((m.GrowCache cl2).1.cache cl).slotStats) := by
  unfold TransferCacheManager.GrowCache
  by_cases hu : m.use_ringbuffer = true
  · rw [if_pos hu]
    cases hc : m.cache cl2 with
    | rbtc r =>
        by_cases hicl : cl = cl2
        · subst hicl
          show StatsLe (m.cache cl).slotStats
            (if cl = cl then CacheSlot.rbtc (r.GrowCache).1
              else m.cache cl).slotStats
          rw [if_pos rfl, hc]
          show StatsLe r.stats (r.GrowCache).1.stats
          rw [RingBufferTransferCache.ringGrowCache_stats]
          exact statsLe_refl _
        · show StatsLe (m.cache cl).slotStats
            (if cl = cl2 then CacheSlot.rbtc (r.GrowCache).1
              else m.cache cl).slotStats
          rw [if_neg hicl]
          exact statsLe_refl _
    | tc l => exact statsLe_refl _
    | dummy => exact statsLe_refl _
  · rw [if_neg hu]
    cases hc : m.cache cl2 with
    | tc l =>
        by_cases hicl : cl = cl2
        · subst hicl
          show StatsLe (m.cache cl).slotStats
            (if cl = cl then CacheSlot.tc (l.GrowCache).1
              else m.cache cl).slotStats
          rw [if_pos rfl, hc]
          show StatsLe l.stats (l.GrowCache).1.stats
          rw [TransferCache.GrowCache_stats]
          exact statsLe_refl _
        · show StatsLe (m.cache cl).slotStats
            (if cl = cl2 then CacheSlot.tc (l.GrowCache).1
              else m.cache cl).slotStats
          rw [if_neg hicl]
          exact statsLe_refl _
    | rbtc r => exact statsLe_refl _
    | dummy => exact statsLe_refl _

lemma slotStats_ShrinkCache (m : TransferCacheManager) (cl2 cl : Nat) :
    StatsLe ((m.cache cl).slotStats)
      (((m.ShrinkCache cl2).1.cache cl).slotStats) := by
  unfold TransferCacheManager.ShrinkCache
  by_cases hu : m.use_ringbuffer = true
  · rw [if_pos hu]
    cases hc : m.cache cl2 with
    | rbtc r =>
        by_cases hicl : cl = cl2
        · subst hicl
          show StatsLe (m.cache cl).slotStats
            (if cl = cl then CacheSlot.rbtc (r.ShrinkCache).1
              else m.cache cl).slotStats
          rw [if_pos rfl, hc]
          show StatsLe r.stats (r.ShrinkCache).1.stats
          rw [RingBufferTransferCache.ringShrinkCache_stats]
          exact statsLe_refl _
        · show StatsLe (m.cache cl).slotStats
            (if cl = cl2 then CacheSlot.rbtc (r.ShrinkCache).1
              else m.cache cl).slotStats
          rw [if_neg hicl]
          exact statsLe_refl _
    | tc l => exact statsLe_refl _
    | dummy => exact statsLe_refl _
  · rw [if_neg hu]
    cases hc : m.cache cl2 with
    | tc l =>
        by_cases hicl : cl = cl2
        · subst hicl
          show StatsLe (m.cache cl).slotStats
            (if cl = cl then CacheSlot.tc (l.ShrinkCache).1
              else m.cache cl).slotStats
          rw [if_pos rfl, hc]
          show StatsLe l.stats (l.ShrinkCache).1.stats
          rw [TransferCache.ShrinkCache_stats]
          exact statsLe_refl _
        · show StatsLe (m.cache cl).slotStats
            (if cl = cl2 then CacheSlot.tc (l.ShrinkCache).1
              else m.cache cl).slotStats
          rw [if_neg hicl]
          exact statsLe_refl _
    | rbtc r => exact statsLe_refl _
    | dummy => exact statsLe_refl _

lemma slotStats_stepOp (m : TransferCacheManager) (op : Op) (cl : Nat) :
    StatsLe ((m.cache cl).slotStats)
      (((m.stepOp op).1.cache cl).slotStats) := by
  cases op with
  | insertRange cl2 batch => exact slotStats_InsertRange m cl2 batch cl
  | removeRange cl2 n => exact slotStats_RemoveRange m cl2 n cl
  | tcLength cl2 => exact statsLe_refl _
  | getHitRateStats cl2 => exact statsLe_refl _
  | centralFreelist cl2 => exact statsLe_refl _
  | growCache cl2 => exact slotStats_GrowCache m cl2 cl
  | shrinkCache cl2 => exact slotStats_ShrinkCache m cl2 cl

lemma GetHitRateStats_stepOp_mono (m : TransferCacheManager) (op : Op)
    (cl : Nat) :
    StatsLe (m.GetHitRateStats cl) ((m.stepOp op).1.GetHitRateStats cl) := by
  rw [GetHitRateStats_eq, GetHitRateStats_eq, stepOp_use, stepOp_variant]
  split <;> split
  · exact slotStats_stepOp m op cl
  · exact statsLe_refl _
  · exact slotStats_stepOp m op cl
  · exact statsLe_refl _

lemma GetHitRateStats_runTrace_mono (m : TransferCacheManager)
    (ops : List Op) (cl : Nat) :
    StatsLe (m.GetHitRateStats cl)
      ((m.runTrace ops).1.GetHitRateStats cl) := by
  induction ops generalizing m with
  | nil => exact statsLe_refl _
  | cons op rest ih =>
      exact statsLe_trans (GetHitRateStats_stepOp_mono m op cl)
        (by simpa [TransferCacheManager.runTrace] using ih (m.stepOp op).1)

end TransferCacheManager

/-! ## Helper lemmas: dispatch equations under the invariant -/

namespace TransferCacheManager

variable {m : TransferCacheManager} {cl : Nat}

lemma InsertRange_eq_tc {l : TransferCache} (hu : m.use_ringbuffer = false)
    (hc : m.cache cl = .tc l) (batch : List Ptr) :
    m.InsertRange cl batch =
      (m.setSlot cl (.tc (l.InsertRange batch).1)).pushFreelist cl
        (l.InsertRange batch).2 := by
  simp [TransferCacheManager.InsertRange, hu, hc]

lemma InsertRange_eq_rbtc {r : RingBufferTransferCache}
    (hu : m.use_ringbuffer = true) (hc : m.cache cl = .rbtc r)
    (batch : List Ptr) :
    m.InsertRange cl batch =
      (m.setSlot cl (.rbtc (r.InsertRange batch).1)).pushFreelist cl
        (r.InsertRange batch).2 := by
  simp [TransferCacheManager.InsertRange, hu, hc]

lemma RemoveRange_eq_tc {l : TransferCache} (hu : m.use_ringbuffer = false)
    (hc : m.cache cl = .tc l) (n : Nat) :
    m.RemoveRange cl n =
      (m.setSlot cl (.tc (l.RemoveRange n).1), (l.RemoveRange n).2) := by
  simp [TransferCacheManager.RemoveRange, hu, hc]

lemma RemoveRange_eq_rbtc {r : RingBufferTransferCache}
    (hu : m.use_ringbuffer = true) (hc : m.cache cl = .rbtc r) (n : Nat) :
    m.RemoveRange cl n =
      (m.setSlot cl (.rbtc (r.RemoveRange n).1), (r.RemoveRange n).2) := by
  simp [TransferCacheManager.RemoveRange, hu, hc]

lemma GrowCache_eq_tc {l : TransferCache} (hu : m.use_ringbuffer = false)
    (hc : m.cache cl = .tc l) :
    m.GrowCache cl =
      (m.setSlot cl (.tc (l.GrowCache).1), (l.GrowCache).2) := by
  simp [TransferCacheManager.GrowCache, hu, hc]

lemma GrowCache_eq_rbtc {r : RingBufferTransferCache}
    (hu : m.use_ringbuffer = true) (hc : m.cache cl = .rbtc r) :
    m.GrowCache cl =
      (m.setSlot cl (.rbtc (r.GrowCache).1), (r.GrowCache).2) := by
  simp [TransferCacheManager.GrowCache, hu, hc]

lemma ShrinkCache_eq_tc {l : TransferCache} (hu : m.use_ringbuffer = false)
    (hc : m.cache cl = .tc l) :
    m.ShrinkCache cl =
      (m.setSlot cl (.tc (l.ShrinkCache).1), (l.ShrinkCache).2) := by
  simp [TransferCacheManager.ShrinkCache, hu, hc]

lemma ShrinkCache_eq_rbtc {r : RingBufferTransferCache}
    (hu : m.use_ringbuffer = true) (hc : m.cache cl = .rbtc r) :
    m.ShrinkCache cl =
      (m.setSlot cl (.rbtc (r.ShrinkCache).1), (r.ShrinkCache).2) := by
  simp [TransferCacheManager.ShrinkCache, hu, hc]

lemma tc_length_eq_tc {l : TransferCache} (hu : m.use_ringbuffer = false)
    (hc : m.cache cl = .tc l) : m.tc_length cl = l.slots.length := by
  simp [TransferCacheManager.tc_length, hu, hc, TransferCache.tc_length]

lemma tc_length_eq_rbtc {r : RingBufferTransferCache}
    (hu : m.use_ringbuffer = true) (hc : m.cache cl = .rbtc r) :
    m.tc_length cl = r.len := by
  simp [TransferCacheManager.tc_length, hu, hc,
    RingBufferTransferCache.tc_length]

lemma capacityOf_eq_tc {l : TransferCache} (hc : m.cache cl = .tc l) :
    m.capacityOf cl = l.capacity := by
  simp [TransferCacheManager.capacityOf, hc]

lemma capacityOf_eq_rbtc {r : RingBufferTransferCache}
    (hc : m.cache cl = .rbtc r) : m.capacityOf cl = r.capacity := by
  simp [TransferCacheManager.capacityOf, hc]

lemma capMaxOf_eq_tc {l : TransferCache} (hc : m.cache cl = .tc l) :
    m.capMaxOf cl = l.capMax := by
  simp [TransferCacheManager.capMaxOf, hc]

lemma capMaxOf_eq_rbtc {r : RingBufferTransferCache}
    (hc : m.cache cl = .rbtc r) : m.capMaxOf cl = r.capMax := by
  simp [TransferCacheManager.capMaxOf, hc]

lemma unitOf_eq_tc {l : TransferCache} (hc : m.cache cl = .tc l) :
    m.unitOf cl = l.unit := by
  simp [TransferCacheManager.unitOf, hc]

lemma unitOf_eq_rbtc {r : RingBufferTransferCache}
    (hc : m.cache cl = .rbtc r) : m.unitOf cl = r.unit := by
  simp [TransferCacheManager.unitOf, hc]

lemma slotsOf_eq_tc {l : TransferCache} (hc : m.cache cl = .tc l) :
    m.slotsOf cl = l.slots := by
  simp [TransferCacheManager.slotsOf, hc]

lemma slotsOf_eq_rbtc {r : RingBufferTransferCache}
    (hc : m.cache cl = .rbtc r) : m.slotsOf cl = r.toList := by
  simp [TransferCacheManager.slotsOf, hc]

end TransferCacheManager

/-! ## Helper lemmas: grow/shrink arithmetic on one backend -/

lemma TransferCache.ShrinkCache_false_iff (c : TransferCache) :
    (c.ShrinkCache).2 = false ↔ c.capacity = 0 := by
  unfold TransferCache.ShrinkCache
  split
  next h => simp [h]
  next h => simp [h]

lemma RingBufferTransferCache.ringShrinkCache_false_iff
    (c : RingBufferTransferCache) :
    (c.ShrinkCache).2 = false ↔ c.capacity = 0 := by
  unfold RingBufferTransferCache.ShrinkCache
  split
  next h => simp [h]
  next h => simp [h]

lemma TransferCache.shrink_grow (c : TransferCache)
    (h1 : c.unit ≤ c.capacity) (h2 : c.capacity ≤ c.capMax) :
    ((c.ShrinkCache).1.GrowCache).1.capacity = c.capacity := by
  unfold TransferCache.ShrinkCache
  by_cases h : c.capacity = 0
  · rw [if_pos h]
    show ((c.GrowCache)).1.capacity = c.capacity
    unfold TransferCache.GrowCache
    rw [if_pos (by omega)]
    show c.capacity + c.unit = c.capacity
    omega
  · rw [if_neg h]
    unfold TransferCache.GrowCache
    split
    next h4 => show c.capacity - c.unit + c.unit = c.capacity; omega
    next h4 =>
      exact absurd (show c.capacity - c.unit + c.unit ≤ c.capMax by omega) h4

lemma RingBufferTransferCache.ring_shrink_grow (c : RingBufferTransferCache)
    (h1 : c.unit ≤ c.capacity) (h2 : c.capacity ≤ c.capMax) :
    ((c.ShrinkCache).1.GrowCache).1.capacity = c.capacity := by
  unfold RingBufferTransferCache.ShrinkCache
  by_cases h : c.capacity = 0
  · rw [if_pos h]
    show ((c.GrowCache)).1.capacity = c.capacity
    unfold RingBufferTransferCache.GrowCache
    rw [if_pos (by omega)]
    show c.capacity + c.unit = c.capacity
    omega
  · rw [if_neg h]
    unfold RingBufferTransferCache.GrowCache
    split
    next h4 => show c.capacity - c.unit + c.unit = c.capacity; omega
    next h4 =>
      exact absurd (show c.capacity - c.unit + c.unit ≤ c.capMax by omega) h4

lemma TransferCache.grow_shrink (c : TransferCache)
    (h1 : c.capacity + c.unit ≤ c.capMax) (h2 : 0 < c.unit) :
    ((c.GrowCache).1.ShrinkCache).1.capacity = c.capacity := by
  unfold TransferCache.GrowCache
  rw [if_pos h1]
  unfold TransferCache.ShrinkCache
  split
  next h3 =>
    have h3b : c.capacity + c.unit = 0 := h3
    omega
  next h3 => show c.capacity + c.unit - c.unit = c.capacity; omega

lemma RingBufferTransferCache.ring_grow_shrink (c : RingBufferTransferCache)
    (h1 : c.capacity + c.unit ≤ c.capMax) (h2 : 0 < c.unit) :
    ((c.GrowCache).1.ShrinkCache).1.capacity = c.capacity := by
  unfold RingBufferTransferCache.GrowCache
  rw [if_pos h1]
  unfold RingBufferTransferCache.ShrinkCache
  split
  next h3 =>
    have h3b : c.capacity + c.unit = 0 := h3
    omega
  next h3 => show c.capacity + c.unit - c.unit = c.capacity; omega

lemma TransferCache.ShrinkCache_slots (c : TransferCache) :
    (c.ShrinkCache).1.slots = c.slots := by
  unfold TransferCache.ShrinkCache
  split <;> rfl

lemma TransferCache.GrowCache_slots (c : TransferCache) :
    (c.GrowCache).1.slots = c.slots := by
  unfold TransferCache.GrowCache
  split <;> rfl

lemma RingBufferTransferCache.ShrinkCache_toList
    (c : RingBufferTransferCache) : (c.ShrinkCache).1.toList = c.toList := by
  unfold RingBufferTransferCache.ShrinkCache
  split <;> rfl

lemma RingBufferTransferCache.GrowCache_toList
    (c : RingBufferTransferCache) : (c.GrowCache).1.toList = c.toList := by
  unfold RingBufferTransferCache.GrowCache
  split <;> rfl

/-- Counting argument for the overflow policy: storing the fitting prefix in
the cache and forwarding the rest to the freelist preserves the multiset of
pointers. -/
lemma perm_overflow (a f B : List Ptr) (k : Nat) :
    ((a ++ B.take k) ++ (f ++ B.drop k)).Perm ((a ++ f) ++ B) := by
  rw [List.perm_iff_count]
  intro x
  have hB : (B.take k).count x + (B.drop k).count x = B.count x := by
    rw [← List.count_append, List.take_append_drop]
  simp [List.count_append]
  omega

/-! ## Helper lemmas: scan order -/

lemma scanOrder_mem {N start x : Nat} (hx : x ∈ scanOrder N start) :
    x < N := by
  simp [scanOrder] at hx
  obtain ⟨j, hj, hx⟩ := hx
  subst hx
  exact Nat.mod_lt _ (by omega)

lemma mem_scanOrder {N start cl : Nat} (hstart : start < N) (hcl : cl < N) :
    cl ∈ scanOrder N start := by
  simp [scanOrder]
  refine ⟨(cl + N - start) % N, Nat.mod_lt _ (by omega), ?_⟩
  rw [Nat.add_mod, Nat.mod_mod_of_dvd _ (dvd_refl N), ← Nat.add_mod]
  have harith : start + (cl + N - start) = cl + N := by omega
  rw [harith, Nat.add_mod_right, Nat.mod_eq_of_lt hcl]

/-! ## Claim theorems -/

/-- Example static configuration used by the witnesses: three size classes,
initial capacity 4, capacity maximum 8, growth unit 2. -/
def egParams : Params :=
  { N := 3, initCap := fun _ => 4, capMax := fun _ => 8, unit := fun _ => 2 }

/-- Example configuration with zero capacity everywhere, so that every
insert overflows. -/
def egParamsFull : Params :=
  { N := 2, initCap := fun _ => 0, capMax := fun _ => 0, unit := fun _ => 1 }

/-- C1: `DetermineSizeClassToEvict` advances the `next_to_evict` cursor by
one (wrapping modulo `N`), scans the size classes in cyclic order from the
fetched cursor, never returns a class at minimum capacity (0), and reports
"no victim" (`none`) only when every class below `N` is at minimum
capacity. -/
theorem DetermineSizeClassToEvict_spec (P : Params)
    (m : TransferCacheManager) (hN : 0 < P.N) :
    (m.DetermineSizeClassToEvict P).2.next_to_evict =
        (m.next_to_evict + 1) % P.N ∧
      (∀ cl, (m.DetermineSizeClassToEvict P).1 = some cl →
        cl < P.N ∧ 0 < m.capacityOf cl) ∧
      ((m.DetermineSizeClassToEvict P).1 = none →
        ∀ cl, cl < P.N → m.capacityOf cl = 0) := by
  refine ⟨rfl, ?_, ?_⟩
  · intro cl h
    have h2 : (scanOrder P.N (m.next_to_evict % P.N)).find?
        (fun c => decide (0 < m.capacityOf c)) = some cl := h
    have hmem := List.mem_of_find?_eq_some h2
    have hp := List.find?_some h2
    exact ⟨scanOrder_mem hmem, of_decide_eq_true hp⟩
  · intro h cl hcl
    have h2 : (scanOrder P.N (m.next_to_evict % P.N)).find?
        (fun c => decide (0 < m.capacityOf c)) = none := h
    rw [List.find?_eq_none] at h2
    have h3 := h2 cl (mem_scanOrder (Nat.mod_lt _ hN) hcl)
    simp at h3
    omega

/-- C2: the Legacy-backed manager and the RingBuffer-backed manager are
observationally equivalent: running any trace of public operations from the
two `Init` configurations yields identical observables (including every
removed pointer, every length, every stats snapshot and every
`central_freelist` view) and identical final CentralFreeList contents for
every size class. -/
theorem backend_variants_observationally_equivalent (P : Params)
    (ops : List Op) :
    ((TransferCacheManager.ctor.Init P true).runTrace ops).2 =
        ((TransferCacheManager.ctor.Init P false).runTrace ops).2 ∧
      ∀ cl,
        ((TransferCacheManager.ctor.Init P true).runTrace
            ops).1.central_freelist cl =
          ((TransferCacheManager.ctor.Init P false).runTrace
              ops).1.central_freelist cl := by
  obtain ⟨hsim, hobs⟩ := MgrSim_runTrace (MgrSim_Init P) ops
  exact ⟨hobs.symm, fun cl => (congrFun hsim.2.2.2.1 cl).symm⟩

/-- C3: `RemoveRange(cl, out, n)` returns a count between 0 and `n`, and
(absent concurrency, which the sequential model captures) exactly
`min n (tc_length cl)`. -/
theorem RemoveRange_count_exact (m : TransferCacheManager) (cl n : Nat) :
    (m.RemoveRange cl n).2.length = min n (m.tc_length cl) ∧
      (m.RemoveRange cl n).2.length ≤ n := by
  have h : (m.RemoveRange cl n).2.length = min n (m.tc_length cl) := by
    by_cases hu : m.use_ringbuffer = true
    · cases hc : m.cache cl with
      | rbtc r =>
          rw [TransferCacheManager.RemoveRange_eq_rbtc hu hc,
            TransferCacheManager.tc_length_eq_rbtc hu hc]
          show ((List.range (min n r.len)).map _).length = min n r.len
          simp
      | tc l =>
          have h1 : m.RemoveRange cl n = (m, []) := by
            simp [TransferCacheManager.RemoveRange, hu, hc]
          have h2 : m.tc_length cl = 0 := by
            simp [TransferCacheManager.tc_length, hu, hc]
          rw [h1, h2]
          simp
      | dummy =>
          have h1 : m.RemoveRange cl n = (m, []) := by
            simp [TransferCacheManager.RemoveRange, hu, hc]
          have h2 : m.tc_length cl = 0 := by
            simp [TransferCacheManager.tc_length, hu, hc]
          rw [h1, h2]
          simp
    · have hu2 : m.use_ringbuffer = false := by simpa using hu
      cases hc : m.cache cl with
      | tc l =>
          rw [TransferCacheManager.RemoveRange_eq_tc hu2 hc,
            TransferCacheManager.tc_length_eq_tc hu2 hc]
          show ((l.slots.drop
              (l.slots.length - min n l.slots.length)).reverse).length =
            min n l.slots.length
          simp
          omega
      | rbtc r =>
          have h1 : m.RemoveRange cl n = (m, []) := by
            simp [TransferCacheManager.RemoveRange, hu2, hc]
          have h2 : m.tc_length cl = 0 := by
            simp [TransferCacheManager.tc_length, hu2, hc]
          rw [h1, h2]
          simp
      | dummy =>
          have h1 : m.RemoveRange cl n = (m, []) := by
            simp [TransferCacheManager.RemoveRange, hu2, hc]
          have h2 : m.tc_length cl = 0 := by
            simp [TransferCacheManager.tc_length, hu2, hc]
          rw [h1, h2]
          simp
  exact ⟨h, h ▸ Nat.min_le_left n _⟩

/-- C7: each of the four cumulative counters reported by `GetHitRateStats`
is non-decreasing along any execution of manager operations. -/
theorem GetHitRateStats_monotone (m : TransferCacheManager) (ops : List Op)
    (cl : Nat) :
    (m.GetHitRateStats cl).hits ≤
        ((m.runTrace ops).1.GetHitRateStats cl).hits ∧
      (m.GetHitRateStats cl).misses ≤
        ((m.runTrace ops).1.GetHitRateStats cl).misses ∧
      (m.GetHitRateStats cl).inserts ≤
        ((m.runTrace ops).1.GetHitRateStats cl).inserts ∧
      (m.GetHitRateStats cl).removes ≤
        ((m.runTrace ops).1.GetHitRateStats cl).removes :=
  TransferCacheManager.GetHitRateStats_runTrace_mono m ops cl

/-- C8: `use_ringbuffer_` is written only during `Init` — no public
operation ever changes it — and `Init` constructs, for every size class
below `kNumClasses`, exactly one backend of the single variant family
selected by the flag, which persists across any subsequent trace. -/
theorem use_ringbuffer_set_once_at_Init (P : Params) (flag : Bool)
    (ops : List Op) (i : Nat) (hi : i < P.N) :
    (∀ (m2 : TransferCacheManager) (op : Op),
        (m2.stepOp op).1.use_ringbuffer = m2.use_ringbuffer) ∧
      (TransferCacheManager.ctor.Init P flag).use_ringbuffer = flag ∧
      ((TransferCacheManager.ctor.Init P flag).cache i).variant =
        (if flag then Variant.ring else Variant.legacy) ∧
      ((TransferCacheManager.ctor.Init P flag).runTrace
          ops).1.use_ringbuffer = flag ∧
      (((TransferCacheManager.ctor.Init P flag).runTrace
          ops).1.cache i).variant =
        (if flag then Variant.ring else Variant.legacy) := by
  have hvar : ((TransferCacheManager.ctor.Init P flag).cache i).variant =
      (if flag then Variant.ring else Variant.legacy) := by
    show (if i < P.N then
        (if flag then CacheSlot.rbtc (initRingBufferTransferCache P i)
          else CacheSlot.tc (initTransferCache P i))
      else CacheSlot.dummy).variant = _
    rw [if_pos hi]
    cases flag with
    | false => rfl
    | true => rfl
  refine ⟨TransferCacheManager.stepOp_use, rfl, hvar, ?_, ?_⟩
  · rw [TransferCacheManager.runTrace_use]
    rfl
  · rw [TransferCacheManager.runTrace_variant]
    exact hvar

/-- C9: in the TCMALLOC_SMALL_BUT_SLOW build, `InsertRange` and
`RemoveRange` delegate directly to class `cl`'s CentralFreeList (leaving
every other class's freelist untouched), while `tc_length` returns 0 and
`GetHitRateStats` returns all-zero counters unconditionally. -/
theorem small_build_delegates (m : SmallTransferCacheManager) (cl : Nat)
    (batch : List Ptr) (n : Nat) :
    (m.InsertRange cl batch).freelist =
        (fun i => if i = cl then centralFreeListInsertRange (m.freelist i)
            batch
          else m.freelist i) ∧
      (m.RemoveRange cl n).2 =
        (centralFreeListRemoveRange (m.freelist cl) n).2 ∧
      (m.RemoveRange cl n).1.freelist =
        (fun i => if i = cl then (centralFreeListRemoveRange (m.freelist cl)
            n).1
          else m.freelist i) ∧
      m.tc_length cl = 0 ∧
      m.GetHitRateStats cl = ⟨0, 0, 0, 0⟩ :=
  ⟨rfl, rfl, rfl, rfl, rfl⟩

/-- C10: the constexpr constructor initializes `next_to_evict_` to 1 (not
0); for any class count `N ≥ 2` the cursor lies inside `[0, N)`, the very
first eviction scan starts at size class 1, and size class 0 is the last
class that initial cycle considers. -/
theorem ctor_next_to_evict_one :
    TransferCacheManager.ctor.next_to_evict = 1 ∧
      ∀ N : Nat, 2 ≤ N →
        TransferCacheManager.ctor.next_to_evict < N ∧
        (scanOrder N (TransferCacheManager.ctor.next_to_evict % N)).head? =
          some 1 ∧
        (scanOrder N (TransferCacheManager.ctor.next_to_evict % N)).getLast?
          = some 0 := by
  refine ⟨rfl, ?_⟩
  intro N hN
  have h1 : (1 : Nat) % N = 1 := Nat.mod_eq_of_lt (by omega)
  refine ⟨by show (1 : Nat) < N; omega, ?_, ?_⟩
  · show ((List.range N).map (fun j => (1 % N + j) % N)).head? = some 1
    rw [List.head?_map, List.head?_eq_getElem?]
    have h0 : (List.range N)[0]? = some 0 := by
      simp [show 0 < N by omega]
    rw [h0]
    show some ((1 % N + 0) % N) = some 1
    rw [h1]
    simp [h1]
  · show ((List.range N).map (fun j => (1 % N + j) % N)).getLast? = some 0
    rw [List.getLast?_eq_getElem?]
    have hlen : ((List.range N).map (fun j => (1 % N + j) % N)).length = N :=
      by simp
    rw [hlen, List.getElem?_map]
    have hN1 : (List.range N)[N - 1]? = some (N - 1) := by
      simp [show N - 1 < N by omega]
    rw [hN1]
    show some ((1 % N + (N - 1)) % N) = some 0
    rw [h1]
    have harith : 1 + (N - 1) = N := by omega
    rw [harith, Nat.mod_self]

/-- C4: round-trip — inserting a batch `B` into a reachable manager state
with enough spare capacity and immediately removing `|B|` objects returns
exactly `|B|` pointers whose membership coincides with `B`. -/
theorem insert_remove_roundTrip (P : Params) (flag : Bool) (ops : List Op)
    (cl : Nat) (B : List Ptr) (hcl : cl < P.N) (hB : B ≠ [])
    (hroom :
      ((TransferCacheManager.ctor.Init P flag).runTrace ops).1.tc_length cl
          + B.length ≤
        ((TransferCacheManager.ctor.Init P flag).runTrace
            ops).1.capacityOf cl) :
    (((((TransferCacheManager.ctor.Init P flag).runTrace ops).1.InsertRange
        cl B).RemoveRange cl B.length).2).length = B.length ∧
      ∀ p,
        p ∈ ((((TransferCacheManager.ctor.Init P flag).runTrace
            ops).1.InsertRange cl B).RemoveRange cl B.length).2 ↔ p ∈ B := by
  set s := ((TransferCacheManager.ctor.Init P flag).runTrace ops).1 with hs
  have hinv : MgrInv P s := MgrInv_runTrace P (MgrInv_Init P flag) ops
  have hout : ((s.InsertRange cl B).RemoveRange cl B.length).2 =
      B.reverse := by
    rcases MgrInv_slot P hinv hcl with ⟨hu, l, hc⟩ | ⟨hu, r, hc, hwf⟩
    · have hlen := TransferCacheManager.tc_length_eq_tc hu hc
      have hcap := TransferCacheManager.capacityOf_eq_tc hc
      rw [hlen, hcap] at hroom
      have hfit : min B.length (l.capacity - l.slots.length) = B.length := by
        omega
      have hslots : (l.InsertRange B).1.slots = l.slots ++ B := by
        show l.slots ++
          B.take (min B.length (l.capacity - l.slots.length)) = _
        rw [hfit, List.take_length]
      rw [TransferCacheManager.InsertRange_eq_tc hu hc B]
      have hu2 : ((s.setSlot cl (.tc (l.InsertRange B).1)).pushFreelist cl
          (l.InsertRange B).2).use_ringbuffer = false := hu
      have hc2 : ((s.setSlot cl (.tc (l.InsertRange B).1)).pushFreelist cl
          (l.InsertRange B).2).cache cl = .tc (l.InsertRange B).1 := by
        simp
      rw [TransferCacheManager.RemoveRange_eq_tc hu2 hc2 B.length]
      show ((l.InsertRange B).1.slots.drop
          ((l.InsertRange B).1.slots.length -
            min B.length (l.InsertRange B).1.slots.length)).reverse =
        B.reverse
      rw [hslots]
      have hlen2 : (l.slots ++ B).length = l.slots.length + B.length := by
        simp
      rw [hlen2]
      have harith : l.slots.length + B.length -
          min B.length (l.slots.length + B.length) = l.slots.length := by
        omega
      rw [harith, List.drop_left]
    · have hlen := TransferCacheManager.tc_length_eq_rbtc hu hc
      have hcap := TransferCacheManager.capacityOf_eq_rbtc hc
      rw [hlen, hcap] at hroom
      have hfit : min B.length (r.capacity - r.len) = B.length := by omega
      have htl : (r.InsertRange B).1.toList = r.toList ++ B := by
        rw [RingBufferTransferCache.toList_InsertRange r B hwf, hfit,
          List.take_length]
      rw [TransferCacheManager.InsertRange_eq_rbtc hu hc B]
      have hu2 : ((s.setSlot cl (.rbtc (r.InsertRange B).1)).pushFreelist cl
          (r.InsertRange B).2).use_ringbuffer = true := hu
      have hc2 : ((s.setSlot cl (.rbtc (r.InsertRange B).1)).pushFreelist cl
          (r.InsertRange B).2).cache cl = .rbtc (r.InsertRange B).1 := by
        simp
      rw [TransferCacheManager.RemoveRange_eq_rbtc hu2 hc2 B.length]
      rw [RingBufferTransferCache.out_RemoveRange (r.InsertRange B).1
        B.length]
      have hr2len : (r.InsertRange B).1.len = r.len + B.length := by
        show r.len + min B.length (r.capacity - r.len) = _
        rw [hfit]
      rw [htl, hr2len]
      have harith : r.len + B.length - min B.length (r.len + B.length) =
          r.len := by omega
      rw [harith]
      have hrl : r.toList.length = r.len := r.toList_length
      rw [← hrl, List.drop_left]
  rw [hout]
  constructor
  · simp
  · intro p
    simp

/-- C5: overflow policy — inserting a batch into a reachable manager state
forwards exactly the pointers that do not fit to class `cl`'s
CentralFreeList (the multiset of pointers held by the cache plus the
freelist is preserved, so nothing is lost or duplicated), and inserting
into a full cache leaves `tc_length` unchanged. -/
theorem InsertRange_overflow_to_freelist (P : Params) (flag : Bool)
    (ops : List Op) (cl : Nat) (batch : List Ptr) (hcl : cl < P.N) :
    (((((TransferCacheManager.ctor.Init P flag).runTrace ops).1.InsertRange
          cl batch).slotsOf cl ++
        ((((TransferCacheManager.ctor.Init P flag).runTrace
            ops).1.InsertRange cl batch)).central_freelist cl).Perm
      ((((TransferCacheManager.ctor.Init P flag).runTrace ops).1.slotsOf cl
          ++ ((TransferCacheManager.ctor.Init P flag).runTrace
            ops).1.central_freelist cl) ++ batch)) ∧
    (((TransferCacheManager.ctor.Init P flag).runTrace ops).1.capacityOf cl
        ≤ ((TransferCacheManager.ctor.Init P flag).runTrace
          ops).1.tc_length cl →
      ((((TransferCacheManager.ctor.Init P flag).runTrace
          ops).1.InsertRange cl batch)).tc_length cl =
        ((TransferCacheManager.ctor.Init P flag).runTrace
          ops).1.tc_length cl) := by
  set s := ((TransferCacheManager.ctor.Init P flag).runTrace ops).1 with hs
  have hinv : MgrInv P s := MgrInv_runTrace P (MgrInv_Init P flag) ops
  rcases MgrInv_slot P hinv hcl with ⟨hu, l, hc⟩ | ⟨hu, r, hc, hwf⟩
  · rw [TransferCacheManager.InsertRange_eq_tc hu hc batch]
    have hu2 : ((s.setSlot cl (.tc (l.InsertRange batch).1)).pushFreelist cl
        (l.InsertRange batch).2).use_ringbuffer = false := hu
    have hc2 : ((s.setSlot cl (.tc (l.InsertRange batch).1)).pushFreelist cl
        (l.InsertRange batch).2).cache cl = .tc (l.InsertRange batch).1 := by
      simp
    constructor
    · rw [TransferCacheManager.slotsOf_eq_tc hc2,
        TransferCacheManager.slotsOf_eq_tc hc]
      show ((l.InsertRange batch).1.slots ++
          (if cl = cl then centralFreeListInsertRange (s.freelist cl)
              (l.InsertRange batch).2
            else s.freelist cl)).Perm
        ((l.slots ++ s.freelist cl) ++ batch)
      rw [if_pos rfl]
      show ((l.slots ++
          batch.take (min batch.length (l.capacity - l.slots.length))) ++
          (s.freelist cl ++
            batch.drop (min batch.length (l.capacity - l.slots.length)))).Perm
        ((l.slots ++ s.freelist cl) ++ batch)
      exact perm_overflow l.slots (s.freelist cl) batch _
    · intro hfull
      rw [TransferCacheManager.capacityOf_eq_tc hc,
        TransferCacheManager.tc_length_eq_tc hu hc] at hfull
      rw [TransferCacheManager.tc_length_eq_tc hu2 hc2,
        TransferCacheManager.tc_length_eq_tc hu hc]
      show (l.slots ++
          batch.take (min batch.length (l.capacity - l.slots.length))).length
        = l.slots.length
      have hfit : min batch.length (l.capacity - l.slots.length) = 0 := by
        omega
      rw [hfit]
      simp
  · rw [TransferCacheManager.InsertRange_eq_rbtc hu hc batch]
    have hu2 : ((s.setSlot cl (.rbtc (r.InsertRange batch).1)).pushFreelist
        cl (r.InsertRange batch).2).use_ringbuffer = true := hu
    have hc2 : ((s.setSlot cl (.rbtc (r.InsertRange batch).1)).pushFreelist
        cl (r.InsertRange batch).2).cache cl =
        .rbtc (r.InsertRange batch).1 := by
      simp
    constructor
    · rw [TransferCacheManager.slotsOf_eq_rbtc hc2,
        TransferCacheManager.slotsOf_eq_rbtc hc]
      show ((r.InsertRange batch).1.toList ++
          (if cl = cl then centralFreeListInsertRange (s.freelist cl)
              (r.InsertRange batch).2
            else s.freelist cl)).Perm
        ((r.toList ++ s.freelist cl) ++ batch)
      rw [if_pos rfl]
      rw [RingBufferTransferCache.toList_InsertRange r batch hwf]
      show ((r.toList ++
          batch.take (min batch.length (r.capacity - r.len))) ++
          (s.freelist cl ++
            batch.drop (min batch.length (r.capacity - r.len)))).Perm
        ((r.toList ++ s.freelist cl) ++ batch)
      exact perm_overflow r.toList (s.freelist cl) batch _
    · intro hfull
      rw [TransferCacheManager.capacityOf_eq_rbtc hc,
        TransferCacheManager.tc_length_eq_rbtc hu hc] at hfull
      rw [TransferCacheManager.tc_length_eq_rbtc hu2 hc2,
        TransferCacheManager.tc_length_eq_rbtc hu hc]
      show r.len + min batch.length (r.capacity - r.len) = r.len
      have hfit : min batch.length (r.capacity - r.len) = 0 := by omega
      rw [hfit]
      omega

/-- C6: grow/shrink pairing on a reachable manager state — `ShrinkCache`
refuses (returns `false`) exactly when the class is at minimum capacity;
shrink-then-grow restores the capacity when the capacity holds at least one
growth unit and is within the maximum; grow-then-shrink restores it when
there is budget for one more unit; and neither operation touches the stored
pointers. -/
theorem grow_shrink_pairing (P : Params) (flag : Bool) (ops : List Op)
    (cl : Nat) (hcl : cl < P.N) :
    ((((TransferCacheManager.ctor.Init P flag).runTrace ops).1.ShrinkCache
        cl).2 = false ↔
      ((TransferCacheManager.ctor.Init P flag).runTrace ops).1.capacityOf cl
        = 0) ∧
    (((TransferCacheManager.ctor.Init P flag).runTrace ops).1.unitOf cl ≤
        ((TransferCacheManager.ctor.Init P flag).runTrace ops).1.capacityOf
          cl →
      ((TransferCacheManager.ctor.Init P flag).runTrace ops).1.capacityOf cl
          ≤ ((TransferCacheManager.ctor.Init P flag).runTrace
            ops).1.capMaxOf cl →
      ((((((TransferCacheManager.ctor.Init P flag).runTrace
          ops).1.ShrinkCache cl).1.GrowCache cl).1).capacityOf cl =
        ((TransferCacheManager.ctor.Init P flag).runTrace ops).1.capacityOf
          cl)) ∧
    (((TransferCacheManager.ctor.Init P flag).runTrace ops).1.capacityOf cl
          + ((TransferCacheManager.ctor.Init P flag).runTrace ops).1.unitOf
            cl ≤
        ((TransferCacheManager.ctor.Init P flag).runTrace ops).1.capMaxOf cl
        →
      0 < ((TransferCacheManager.ctor.Init P flag).runTrace ops).1.unitOf cl
        →
      ((((((TransferCacheManager.ctor.Init P flag).runTrace
          ops).1.GrowCache cl).1.ShrinkCache cl).1).capacityOf cl =
        ((TransferCacheManager.ctor.Init P flag).runTrace ops).1.capacityOf
          cl)) ∧
    ((((TransferCacheManager.ctor.Init P flag).runTrace ops).1.ShrinkCache
        cl).1.slotsOf cl =
      ((TransferCacheManager.ctor.Init P flag).runTrace ops).1.slotsOf cl) ∧
    ((((TransferCacheManager.ctor.Init P flag).runTrace ops).1.GrowCache
        cl).1.slotsOf cl =
      ((TransferCacheManager.ctor.Init P flag).runTrace ops).1.slotsOf cl)
    := by
  set s := ((TransferCacheManager.ctor.Init P flag).runTrace ops).1 with hs
  have hinv : MgrInv P s := MgrInv_runTrace P (MgrInv_Init P flag) ops
  rcases MgrInv_slot P hinv hcl with ⟨hu, l, hc⟩ | ⟨hu, r, hc, hwf⟩
  · have hcap := TransferCacheManager.capacityOf_eq_tc hc
    have hunit := TransferCacheManager.unitOf_eq_tc hc
    have hmax := TransferCacheManager.capMaxOf_eq_tc hc
    have hshr := TransferCacheManager.ShrinkCache_eq_tc hu hc
    have hgro := TransferCacheManager.GrowCache_eq_tc hu hc
    have hcshr : (s.ShrinkCache cl).1.cache cl = .tc (l.ShrinkCache).1 := by
      rw [hshr]; simp
    have hushr : (s.ShrinkCache cl).1.use_ringbuffer = false := by
      rw [hshr]; exact hu
    have hcgro : (s.GrowCache cl).1.cache cl = .tc (l.GrowCache).1 := by
      rw [hgro]; simp
    have hugro : (s.GrowCache cl).1.use_ringbuffer = false := by
      rw [hgro]; exact hu
    refine ⟨?_, ?_, ?_, ?_, ?_⟩
    · rw [hshr, hcap]
      exact l.ShrinkCache_false_iff
    · intro h1 h2
      rw [hunit, hcap] at h1
      rw [hcap, hmax] at h2
      rw [TransferCacheManager.GrowCache_eq_tc hushr hcshr]
      have : ((s.ShrinkCache cl).1.setSlot cl
          (.tc ((l.ShrinkCache).1.GrowCache).1)).cache cl =
          .tc ((l.ShrinkCache).1.GrowCache).1 := by simp
      rw [TransferCacheManager.capacityOf_eq_tc this, hcap]
      exact l.shrink_grow h1 h2
    · intro h1 h2
      rw [hcap, hunit, hmax] at h1
      rw [hunit] at h2
      rw [TransferCacheManager.ShrinkCache_eq_tc hugro hcgro]
      have : ((s.GrowCache cl).1.setSlot cl
          (.tc ((l.GrowCache).1.ShrinkCache).1)).cache cl =
          .tc ((l.GrowCache).1.ShrinkCache).1 := by simp
      rw [TransferCacheManager.capacityOf_eq_tc this, hcap]
      exact l.grow_shrink h1 h2
    · rw [TransferCacheManager.slotsOf_eq_tc hcshr,
        TransferCacheManager.slotsOf_eq_tc hc]
      exact l.ShrinkCache_slots
    · rw [TransferCacheManager.slotsOf_eq_tc hcgro,
        TransferCacheManager.slotsOf_eq_tc hc]
      exact l.GrowCache_slots
  · have hcap := TransferCacheManager.capacityOf_eq_rbtc hc
    have hunit := TransferCacheManager.unitOf_eq_rbtc hc
    have hmax := TransferCacheManager.capMaxOf_eq_rbtc hc
    have hshr := TransferCacheManager.ShrinkCache_eq_rbtc hu hc
    have hgro := TransferCacheManager.GrowCache_eq_rbtc hu hc
    have hcshr : (s.ShrinkCache cl).1.cache cl = .rbtc (r.ShrinkCache).1 :=
      by rw [hshr]; simp
    have hushr : (s.ShrinkCache cl).1.use_ringbuffer = true := by
      rw [hshr]; exact hu
    have hcgro : (s.GrowCache cl).1.cache cl = .rbtc (r.GrowCache).1 := by
      rw [hgro]; simp
    have hugro : (s.GrowCache cl).1.use_ringbuffer = true := by
      rw [hgro]; exact hu
    refine ⟨?_, ?_, ?_, ?_, ?_⟩
    · rw [hshr, hcap]
      exact r.ringShrinkCache_false_iff
    · intro h1 h2
      rw [hunit, hcap] at h1
      rw [hcap, hmax] at h2
      rw [TransferCacheManager.GrowCache_eq_rbtc hushr hcshr]
      have : ((s.ShrinkCache cl).1.setSlot cl
          (.rbtc ((r.ShrinkCache).1.GrowCache).1)).cache cl =
          .rbtc ((r.ShrinkCache).1.GrowCache).1 := by simp
      rw [TransferCacheManager.capacityOf_eq_rbtc this, hcap]
      exact r.ring_shrink_grow h1 h2
    · intro h1 h2
      rw [hcap, hunit, hmax] at h1
      rw [hunit] at h2
      rw [TransferCacheManager.ShrinkCache_eq_rbtc hugro hcgro]
      have : ((s.GrowCache cl).1.setSlot cl
          (.rbtc ((r.GrowCache).1.ShrinkCache).1)).cache cl =
          .rbtc ((r.GrowCache).1.ShrinkCache).1 := by simp
      rw [TransferCacheManager.capacityOf_eq_rbtc this, hcap]
      exact r.ring_grow_shrink h1 h2
    · rw [TransferCacheManager.slotsOf_eq_rbtc hcshr,
        TransferCacheManager.slotsOf_eq_rbtc hc]
      exact r.ShrinkCache_toList
    · rw [TransferCacheManager.slotsOf_eq_rbtc hcgro,
        TransferCacheManager.slotsOf_eq_rbtc hc]
      exact r.GrowCache_toList

/-! ## Witnesses -/

/-- The example Legacy manager state: fresh `Init` with the example
configuration. -/
def egState : TransferCacheManager :=
  ((TransferCacheManager.ctor.Init egParams false).runTrace []).1

/-- The example RingBuffer manager state. -/
def egRingState : TransferCacheManager :=
  ((TransferCacheManager.ctor.Init egParams true).runTrace []).1

/-- The example zero-capacity manager state. -/
def egFullState : TransferCacheManager :=
  ((TransferCacheManager.ctor.Init egParamsFull false).runTrace []).1

/-- Witness for C1 at the example configuration: three classes of capacity
4, fresh manager; the scan starts at class 1 and returns it. -/
theorem DetermineSizeClassToEvict_spec_witness :
    0 < egParams.N ∧
      ((TransferCacheManager.ctor.Init egParams
          false).DetermineSizeClassToEvict egParams).1 = some 1 ∧
      1 < egParams.N ∧
      0 < (TransferCacheManager.ctor.Init egParams false).capacityOf 1 :=
  ⟨by decide, by decide,
    ((DetermineSizeClassToEvict_spec egParams
        (TransferCacheManager.ctor.Init egParams false) (by decide)).2.1 1
      (by decide)).1,
    ((DetermineSizeClassToEvict_spec egParams
        (TransferCacheManager.ctor.Init egParams false) (by decide)).2.1 1
      (by decide)).2⟩

/-- Witness for C4: inserting `[10, 20]` into class 1 of a freshly
initialized RingBuffer manager (capacity 4) and removing 2 returns 2
pointers. -/
theorem insert_remove_roundTrip_witness :
    (1 < egParams.N ∧ ([10, 20] : List Ptr) ≠ [] ∧
      egRingState.tc_length 1 + ([10, 20] : List Ptr).length ≤
        egRingState.capacityOf 1) ∧
      (((egRingState.InsertRange 1 [10, 20]).RemoveRange 1
          ([10, 20] : List Ptr).length).2).length =
        ([10, 20] : List Ptr).length :=
  ⟨⟨by decide, by decide, by decide⟩,
    (insert_remove_roundTrip egParams true [] 1 [10, 20] (by decide)
      (by decide) (by decide)).1⟩

/-- Witness for C5 at the zero-capacity configuration: inserting `[5]` into
the full (capacity-0) class 1 forwards everything to the freelist and
leaves `tc_length` unchanged. -/
theorem InsertRange_overflow_to_freelist_witness :
    1 < egParamsFull.N ∧
      ((egFullState.InsertRange 1 [5]).slotsOf 1 ++
          (egFullState.InsertRange 1 [5]).central_freelist 1).Perm
        ((egFullState.slotsOf 1 ++ egFullState.central_freelist 1) ++ [5]) ∧
      (egFullState.capacityOf 1 ≤ egFullState.tc_length 1 →
        (egFullState.InsertRange 1 [5]).tc_length 1 =
          egFullState.tc_length 1) :=
  ⟨by decide,
    (InsertRange_overflow_to_freelist egParamsFull false [] 1 [5]
      (by decide)).1,
    (InsertRange_overflow_to_freelist egParamsFull false [] 1 [5]
      (by decide)).2⟩

/-- Witness for C6 at the example configuration (capacity 4, unit 2,
maximum 8) on class 2 of a fresh Legacy manager. -/
theorem grow_shrink_pairing_witness :
    2 < egParams.N ∧
      ((egState.ShrinkCache 2).2 = false ↔ egState.capacityOf 2 = 0) ∧
      (egState.unitOf 2 ≤ egState.capacityOf 2 →
        egState.capacityOf 2 ≤ egState.capMaxOf 2 →
        (((egState.ShrinkCache 2).1.GrowCache 2).1).capacityOf 2 =
          egState.capacityOf 2) ∧
      (egState.capacityOf 2 + egState.unitOf 2 ≤ egState.capMaxOf 2 →
        0 < egState.unitOf 2 →
        (((egState.GrowCache 2).1.ShrinkCache 2).1).capacityOf 2 =
          egState.capacityOf 2) ∧
      ((egState.ShrinkCache 2).1.slotsOf 2 = egState.slotsOf 2) ∧
      ((egState.GrowCache 2).1.slotsOf 2 = egState.slotsOf 2) :=
  ⟨by decide, grow_shrink_pairing egParams false [] 2 (by decide)⟩

/-- Witness for C8: after `Init` with the RingBuffer flag and an insert into
class 0, class 2 still holds a RingBuffer backend and the flag still reads
`true`. -/
theorem use_ringbuffer_set_once_at_Init_witness :
    2 < egParams.N ∧
      (TransferCacheManager.ctor.Init egParams true).use_ringbuffer = true ∧
      ((TransferCacheManager.ctor.Init egParams true).cache 2).variant =
        (if true then Variant.ring else Variant.legacy) ∧
      ((TransferCacheManager.ctor.Init egParams true).runTrace
          [Op.insertRange 0 [3]]).1.use_ringbuffer = true ∧
      (((TransferCacheManager.ctor.Init egParams true).runTrace
          [Op.insertRange 0 [3]]).1.cache 2).variant =
        (if true then Variant.ring else Variant.legacy) :=
  ⟨by decide,
    (use_ringbuffer_set_once_at_Init egParams true [Op.insertRange 0 [3]] 2
      (by decide)).2⟩

/-- Witness for C10 at `N = 5`: the initial cursor 1 is inside `[0, 5)`, the
first scanned class is 1 and the last is 0. -/
theorem ctor_next_to_evict_one_witness :
    (2 : Nat) ≤ 5 ∧
      TransferCacheManager.ctor.next_to_evict < 5 ∧
      (scanOrder 5 (TransferCacheManager.ctor.next_to_evict % 5)).head? =
        some 1 ∧
      (scanOrder 5 (TransferCacheManager.ctor.next_to_evict % 5)).getLast? =
        some 0 :=
  ⟨by decide, ctor_next_to_evict_one.2 5 (by decide)⟩

end TCMalloc
